/-
  Verification of the cam-bus supervisor against its specification.

  This file shallowly embeds the Go code of the repository
  (internal/supervisor, internal/uplink, internal/mediamtx,
  internal/engines, internal/drivers, internal/core) as executable Lean
  definitions and proves or refutes the specification claims about them.

  Modelling conventions:
  * Go strings are modelled as Lean `String` (a list of characters).
    All string operations used by the code are ASCII-level; characters
    outside ASCII are carried verbatim where Go would percent-encode
    their UTF-8 bytes (both treatments are injective round trips, so no
    verdict depends on the difference).
  * Go `int` is modelled as `Int`, `time.Duration` as `Int` nanoseconds.
  * Go maps are modelled as association lists with unique keys
    (assignment replaces the value of an existing key); map iteration
    order never matters for the proved statements.
  * Ambient environment variables read by a function are made explicit
    parameters of its embedding.
-/
import Mathlib

namespace CamBus

/-! ## Go string primitives -/

/-- Whitespace class used by strings.TrimSpace (ASCII subset of unicode.IsSpace). -/
def isGoSpace (c : Char) : Bool :=
  c = ' ' || c = '\t' || c = '\n' || c = '\x0b' || c = '\x0c' || c = '\r'

/-- strings.TrimSpace. -/
def trimSpace (s : String) : String :=
  ⟨(s.data.dropWhile isGoSpace).reverse.dropWhile isGoSpace |>.reverse⟩

/-- strings.Trim(s, "/"): strip leading and trailing slashes. -/
def trimSlashes (s : String) : String :=
  ⟨(s.data.dropWhile (· = '/')).reverse.dropWhile (· = '/') |>.reverse⟩

/-- strings.TrimLeft(s, "?&"). -/
def trimLeftQueryMarks (s : String) : String :=
  ⟨s.data.dropWhile (fun c => c = '?' || c = '&')⟩

/-- ASCII lower-casing of one character (unicode.ToLower restricted to ASCII). -/
def toLowerChar (c : Char) : Char :=
  if 'A' ≤ c ∧ c ≤ 'Z' then Char.ofNat (c.toNat + 32) else c

/-- strings.ToLower (ASCII). -/
def toLowerStr (s : String) : String :=
  ⟨s.data.map toLowerChar⟩

/-- strings.EqualFold (ASCII): case-insensitive equality. -/
def eqFold (a b : String) : Bool :=
  toLowerStr a = toLowerStr b

/-- strings.TrimPrefix(s, "/"): remove one leading slash if present. -/
def stripLeadingSlash (s : String) : String :=
  match s.data with
  | '/' :: rest => ⟨rest⟩
  | _ => s

/-- strconv.Atoi: optional sign followed by at least one digit, nothing else.
    The embedding uses unbounded `Int`; Go would range-error outside int64,
    which no claim exercises. -/
def goAtoi (s : String) : Option Int :=
  let core : List Char → Option Nat := fun ds =>
    if ds.isEmpty then none
    else if ds.all (fun c => '0' ≤ c ∧ c ≤ '9') then
      some (ds.foldl (fun acc c => acc * 10 + (c.toNat - '0'.toNat)) 0)
    else none
  match s.data with
  | '+' :: rest => (core rest).map Int.ofNat
  | '-' :: rest => (core rest).map (fun n => -(Int.ofNat n))
  | ds => (core ds).map Int.ofNat

/-! ## Core data model (internal/core/types.go)

`CameraInfo` as decoded from the descriptor topic.  The revision of
types.go shipped in the repository snapshot predates the
centralHost/centralSrtPort fields, which every caller in
internal/supervisor uses; they are included here as the callers require. -/

structure CameraInfo where
  ip : String := ""
  name : String := ""
  manufacturer : String := ""
  model : String := ""
  username : String := ""
  password : String := ""
  port : Int := 0
  useTLS : Bool := false
  analytics : List String := []
  enabled : Bool := false
  rtspURL : String := ""
  proxyPath : String := ""
  centralHost : String := ""
  centralSrtPort : Int := 0
  centralPath : String := ""
  recordEnabled : Bool := false
  recordRetentionMinutes : Int := 0
  preRollSeconds : Int := 0
  tenant : String := ""
  building : String := ""
  floor : String := ""
  deviceType : String := ""
  deviceID : String := ""
  shard : String := ""
  deriving DecidableEq, Repr

/-! ## path.Join (Go standard library), as used by CentralPathFor

The joined arguments are first stripped of surrounding slashes, so the
joined path is never rooted; the embedding implements Clean for
non-rooted paths. -/

/-- Structural split of a character list on a separator character
    (kernel-reducible replacement for String.splitOn on one-character
    separators). -/
def splitOnChar (sep : Char) : List Char → List (List Char)
  | [] => [[]]
  | c :: t =>
    if c = sep then [] :: splitOnChar sep t
    else
      match splitOnChar sep t with
      | p :: ps => (c :: p) :: ps
      | [] => [[c]]

/-- Go path.Clean segment processing for a non-rooted path. -/
def cleanSegments (segs : List String) : List String :=
  segs.foldl
    (fun out seg =>
      if seg = "" ∨ seg = "." then out
      else if seg = ".." then
        match out.getLast? with
        | some last => if last = ".." then out ++ [".."] else out.dropLast
        | none => [".."]
      else out ++ [seg])
    []

/-- Go path.Clean for a non-rooted, non-empty path. -/
def pathClean (p : String) : String :=
  let segs := cleanSegments ((splitOnChar '/' p.data).map fun l => (⟨l⟩ : String))
  if segs.isEmpty then "." else String.intercalate "/" segs

/-- Go path.Join: drop empty elements, join with "/", Clean the result;
    empty when every element is empty. -/
def pathJoin (elems : List String) : String :=
  let nonempty := elems.filter (· ≠ "")
  if nonempty.isEmpty then "" else pathClean (String.intercalate "/" nonempty)

/-- internal/uplink/path.go CentralPathFor: tenant/building/deviceId with
    each component trimmed of spaces and slashes. -/
def centralPathFor (info : CameraInfo) : String :=
  let tenant := trimSlashes (trimSpace info.tenant)
  let building := trimSlashes (trimSpace info.building)
  let deviceID := trimSlashes (trimSpace info.deviceID)
  pathJoin [tenant, building, deviceID]

/-! ## Supervisor descriptor normalisation (internal/supervisor/supervisor.go,
handleInfoMessage lines 606-639)

The JSON-decode step is abstracted: `info` is the decoded payload, and the
five identity arguments are the topic levels (the topic is authoritative). -/

def normalizeInfoMessage (tenant building floor devType devID : String)
    (decoded : CameraInfo) : CameraInfo :=
  let info : CameraInfo := { decoded with
    tenant := tenant, building := building, floor := floor,
    deviceType := devType, deviceID := devID }
  let info : CameraInfo := { info with
    rtspURL := trimSpace info.rtspURL,
    proxyPath := trimSpace info.proxyPath,
    centralHost := trimSpace info.centralHost,
    centralPath := trimSpace info.centralPath }
  let defaultProxyPath0 := trimSpace info.deviceID
  let defaultProxyPath :=
    if defaultProxyPath0 = "" then
      -- strings.Trim(fmt.Sprintf("%s_%s_%s_%s", ...), "_")
      let joined := info.tenant ++ "_" ++ info.building ++ "_" ++ info.floor
        ++ "_" ++ info.deviceID
      ⟨(joined.data.dropWhile (· = '_')).reverse.dropWhile (· = '_') |>.reverse⟩
    else defaultProxyPath0
  let info : CameraInfo :=
    if info.proxyPath = "" then { info with proxyPath := defaultProxyPath } else info
  let info : CameraInfo :=
    if info.centralPath = "" then { info with centralPath := centralPathFor info } else info
  let info : CameraInfo :=
    if info.recordRetentionMinutes < 0 then { info with recordRetentionMinutes := 0 } else info
  let info : CameraInfo := { info with recordEnabled := decide (info.recordRetentionMinutes > 0) }
  let info : CameraInfo :=
    if info.preRollSeconds < 0 then { info with preRollSeconds := 0 } else info
  info

/-! ## Supervisor status interval (supervisor.go envDurationSeconds / New / Run) -/

/-- Nanoseconds per second (time.Second). -/
def nsPerSecond : Int := 1000000000

/-- supervisor.go envDurationSeconds: empty value keeps the default; a
    non-integer or non-positive value is rejected (logged) and keeps the
    default; a positive integer is taken as seconds. -/
def envDurationSeconds (raw : String) (def_ : Int) : Int :=
  let v := trimSpace raw
  if v = "" then def_
  else
    match goAtoi v with
    | none => def_
    | some sec => if sec ≤ 0 then def_ else sec * nsPerSecond

/-- supervisor.New line 128: statusInterval from CAMBUS_STATUS_INTERVAL_SECONDS
    with default 30 seconds; `raw` is the environment value. -/
def statusIntervalOf (raw : String) : Int :=
  envDurationSeconds raw (30 * nsPerSecond)

/-- supervisor.Run line 536: the periodic status loop is spawned iff the
    configured interval is positive. -/
def statusLoopStarted (interval : Int) : Bool :=
  interval > 0

/-! ## Uplink manager reference counting (internal/uplink/manager.go)

The claims concern the per-key lifecycle in `startUplink` / `stopUplink`.
Both operations touch only the map slot `m.uplinks[cameraKey]`, so the
embedding is a transition on that one slot (`Option UplinkProc`).
Launcher interaction is abstracted to the success path (the container run
succeeds); TTL timers and the reconcile loop are outside the claims and
the manager runs with ignoreUplink and always-on disabled, so the
early-return guards of Stop do not fire. -/

structure UplinkRequest where
  cameraID : String := ""
  proxyPath : String := ""
  centralHost : String := ""
  centralSrtPort : Int := 0
  centralPath : String := ""
  ttlSeconds : Int := 0
  deriving DecidableEq, Repr

/-- manager.go defaultSRTPort. -/
def defaultSRTPort : Int := 8890

/-- manager.go normalizePort. -/
def normalizePort (port : Int) : Int :=
  if port ≤ 0 then defaultSRTPort else port

/-- manager.go sameRequest. -/
def sameRequest (a b : UplinkRequest) : Bool :=
  a.cameraID = b.cameraID &&
  a.proxyPath = b.proxyPath &&
  a.centralHost = b.centralHost &&
  normalizePort a.centralSrtPort = normalizePort b.centralSrtPort &&
  a.centralPath = b.centralPath

/-- manager.go uplinkProcess (the fields the claims observe). -/
structure UplinkProc where
  payload : UplinkRequest
  containerStatus : String
  startCount : Nat
  stopCount : Nat
  deriving DecidableEq, Repr

/-- manager.go keyFor. -/
def keyFor (req : UplinkRequest) : String :=
  if req.centralPath ≠ "" then req.centralPath else req.cameraID

/-- startUplink (manager.go lines 265-358) restricted to the slot of
    `cameraKey`: an existing entry with the same payload has its
    startCount incremented (TTL refreshed, not modelled); a different
    payload stops the old process and falls through to a fresh launch;
    a successful launch records startCount=1 stopCount=0 with container
    status running. -/
def startUplinkStep (req : UplinkRequest) (slot : Option UplinkProc) : Option UplinkProc :=
  match slot with
  | some existing =>
    if sameRequest existing.payload req then
      some { existing with startCount := existing.startCount + 1 }
    else
      some { payload := req, containerStatus := "running", startCount := 1, stopCount := 0 }
  | none =>
    some { payload := req, containerStatus := "running", startCount := 1, stopCount := 0 }

/-- stopUplink (manager.go lines 488-508) restricted to the slot of
    `cameraKey`: a missing entry is an error ("uplink not running");
    otherwise stopCount is incremented and, once stopCount ≥ startCount,
    the process is stopped and the entry deleted. -/
def stopUplinkStep (slot : Option UplinkProc) : Option UplinkProc :=
  match slot with
  | none => none
  | some proc =>
    if proc.startCount ≤ proc.stopCount + 1 then none
    else some { proc with stopCount := proc.stopCount + 1 }

/-! ## Engine manager (internal/engines/manager.go) -/

/-- Go time.Time is modelled as nanoseconds since the epoch. -/
abbrev GoTime := Int

/-- internal/core/types.go AnalyticEvent.  Meta carries opaque per-event
    metadata (map[string]interface{}); its values do not matter to any
    claim, so they are modelled as strings. -/
structure AnalyticEvent where
  timestamp : GoTime := 0
  eventID : String := ""
  cameraIP : String := ""
  cameraName : String := ""
  analyticType : String := ""
  tenant : String := ""
  building : String := ""
  floor : String := ""
  deviceType : String := ""
  deviceID : String := ""
  meta : List (String × String) := []
  snapshotURL : String := ""
  snapshotB64 : String := ""
  rawSnapshot : List Nat := []
  deriving DecidableEq, Repr

/-- Outcome of one Engine.Process call: a derived-event list, a returned
    error, or a panic (recovered by ProcessAll into an error). -/
inductive EngineOutcome where
  | ok (derived : List AnalyticEvent)
  | failed
  | panicked
  deriving DecidableEq, Repr

/-- An engine as ProcessAll sees it: Enabled() plus the behaviour of
    Process on the event being dispatched. -/
structure Engine where
  name : String
  enabled : Bool
  run : AnalyticEvent → EngineOutcome

/-- True when the engine's Process call returns without error or panic. -/
def engineSucceeds (e : Engine) (evt : AnalyticEvent) : Bool :=
  match e.run evt with
  | .ok _ => true
  | _ => false

/-- Derived events of one engine run (empty on error or panic). -/
def engineDerived (e : Engine) (evt : AnalyticEvent) : List AnalyticEvent :=
  match e.run evt with
  | .ok derived => derived
  | _ => []

/-- ProcessAll (manager.go lines 66-100): run the engines in order; a
    disabled engine is skipped; a panic is recovered into an error; an
    error skips the engine's derivations and continues; the derivations
    of the successful engines are concatenated in engine order and the
    returned error is always nil (modelled as `none`). -/
def processAll (engines : List Engine) (evt : AnalyticEvent) :
    List AnalyticEvent × Option String :=
  if engines.isEmpty then ([], none)
  else
    (engines.foldl
      (fun out e =>
        if ¬ e.enabled then out
        else
          match e.run evt with
          | .ok derived => out ++ derived
          | _ => out)
      [], none)

/-! ## Vendor analytic-code selection (internal/drivers/dahua.go,
internal/drivers/hikvision.go) -/

/-- internal/core/dahua_analytics.go DahuaEventTypes. -/
def DahuaEventTypes : List String :=
  ["VideoMotion", "SmartMotionHuman", "SmartMotionVehicle", "VideoLoss",
   "VideoBlind", "AlarmLocal", "CrossLineDetection", "CrossRegionDetection",
   "LeftDetection", "TakenAwayDetection", "VideoAbnormalDetection",
   "FaceDetection", "AudioMutation", "AudioAnomaly", "VideoUnFocus",
   "WanderDetection", "RioterDetection", "ParkingDetection", "MoveDetection",
   "StorageNotExist", "StorageFailure", "StorageLowSpace", "AlarmOutput",
   "MDResult", "HeatImagingTemper", "CrowdDetection", "FireWarning",
   "FireWarningInfo"]

/-- internal/core/dahua_analytics.go DahuaEventTypeSet membership (keys
    are the lower-cased event types). -/
def dahuaEventTypeSetMem (key : String) : Bool :=
  (DahuaEventTypes.map toLowerStr).contains key

/-- True for the tokens the Dahua driver treats as "all": EqualFold "all"
    or the literal "*". -/
def isAllToken (name : String) : Bool :=
  eqFold name "all" || name = "*"

/-- The scanning loop of dahua.go selectedEventCodes (lines 85-109):
    returns the accumulated valid codes and whether an all-token was hit
    (the loop breaks there). -/
def dahuaScan : List String → List String × Bool
  | [] => ([], false)
  | a :: rest =>
    let name := trimSpace a
    if name = "" then dahuaScan rest
    else if isAllToken name then ([], true)
    else if dahuaEventTypeSetMem (toLowerStr name) then
      let (s, f) := dahuaScan rest
      (name :: s, f)
    else dahuaScan rest

/-- dahua.go selectedEventCodes (lines 85-126). -/
def dahuaSelectedEventCodes (analytics : List String) : List String :=
  let (selected, allRequested) := dahuaScan analytics
  if allRequested then DahuaEventTypes
  else if selected.isEmpty then ["FaceDetection"]
  else selected

/-- The code-selection part of hikvision.go buildSubscribeEventXML
    (lines 248-277); the XML assembly around the selected list is not
    modelled.  `knownLower` is the key set of core.HikvisionEventTypeSet
    (lower-cased codes), whose defining file is not part of the source
    snapshot, so the set is a parameter here. -/
def hikSelectedEventCodes (knownLower : List String) (analytics : List String) :
    List String :=
  let selected := analytics.foldr
    (fun a acc =>
      let name := trimSpace a
      if name = "" then acc
      else if knownLower.contains (toLowerStr name) then name :: acc
      else acc)
    []
  if selected.isEmpty then ["faceCapture"] else selected

/-- Modelled from the spec: the key set of core.HikvisionEventTypeSet
    (internal/core, file missing from the snapshot).  The spec names
    faceCapture as the Hikvision default/known code and its glossary
    lists CrossLineDetection as another analytic code; the set is the
    lower-cased known codes. -/
def hikvisionEventTypeSetModel : List String :=
  ["facecapture", "crosslinedetection"]

/-! ## Worker event fan-out serialisation (supervisor.go lines 891-933,
internal/core/types.go AnalyticEvent JSON tags)

encoding/json serialises the struct fields in declaration order;
fields tagged omitempty are dropped when empty and RawSnapshot is tagged
`json:"-"` (never serialised).  The claims only inspect which keys appear,
so the payload is modelled as its list of serialised field names. -/

/-- The JSON keys encoding/json emits for an AnalyticEvent. -/
def analyticEventJSONKeys (e : AnalyticEvent) : List String :=
  ["Timestamp", "EventID", "CameraIP", "CameraName", "AnalyticType"]
  ++ (if e.tenant = "" then [] else ["Tenant"])
  ++ (if e.building = "" then [] else ["Building"])
  ++ (if e.floor = "" then [] else ["Floor"])
  ++ (if e.deviceType = "" then [] else ["DeviceType"])
  ++ (if e.deviceID = "" then [] else ["DeviceID"])
  ++ ["Meta"]
  ++ (if e.snapshotURL = "" then [] else ["SnapshotURL"])
  ++ (if e.snapshotB64 = "" then [] else ["SnapshotB64"])

/-- The copy published by the fan-out: evtOut := evt; evtOut.SnapshotB64 = "". -/
def stripForBus (e : AnalyticEvent) : AnalyticEvent :=
  { e with snapshotB64 := "" }

/-- Key sets of every payload the fan-out goroutine publishes for one driver
    event: the stripped original followed by the stripped engine-derived
    events, in order (supervisor.go lines 893-931). -/
def fanOutPublishedKeys (evt : AnalyticEvent) (engines : List Engine) :
    List (List String) :=
  analyticEventJSONKeys (stripForBus evt)
  :: ((processAll engines evt).1.map fun d => analyticEventJSONKeys (stripForBus d))

/-! ## Media gateway config generator (internal/mediamtx/config.go)

The Paths map is an association list assigned with last-write-wins
semantics.  Durations are Int nanoseconds. -/

/-- Nanoseconds per minute (time.Minute). -/
def nsPerMinute : Int := 60 * nsPerSecond

/-- config.go maxRecordDeleteAfter = 10 * time.Minute. -/
def maxRecordDeleteAfter : Int := 10 * nsPerMinute

structure PathDefaults where
  record : Bool := false
  recordPath : String := ""
  recordFormat : String := ""
  recordPartDuration : String := ""
  recordSegmentDuration : String := ""
  recordDeleteAfter : String := ""
  deriving DecidableEq, Repr

structure PathConfig where
  source : String := ""
  sourceOnDemand : Bool := false
  record : Option Bool := none
  recordDeleteAfter : String := ""
  deriving DecidableEq, Repr

structure Config where
  rtspAddress : String := ""
  hls : Bool := false
  webrtc : Bool := false
  api : Bool := false
  apiAddress : String := ""
  pathDefaults : PathDefaults := {}
  paths : List (String × PathConfig) := []
  deriving DecidableEq, Repr

/-- Assignment cfg.Paths[k] = v into the association-list model of the Go
    map: replace the entry of an existing key, otherwise append. -/
def pathsAssign (paths : List (String × PathConfig)) (k : String) (v : PathConfig) :
    List (String × PathConfig) :=
  if (paths.map Prod.fst).contains k then
    paths.map (fun p => if p.1 = k then (k, v) else p)
  else paths ++ [(k, v)]

/-- config.go formatDuration.  The final fallback is Go's
    time.Duration.String(), which no claim reaches; the model renders it
    as raw nanoseconds, which is still deterministic and injective on
    that branch. -/
def formatDuration (d : Int) : String :=
  if d % nsPerMinute = 0 then toString (d / nsPerMinute) ++ "m"
  else if d % nsPerSecond = 0 then toString (d / nsPerSecond) ++ "s"
  else toString d ++ "ns"

/-- config.go retentionForCamera. -/
def retentionForCamera (info : CameraInfo) (defaultRetention : Int) : Int :=
  if info.recordRetentionMinutes ≤ 0 then defaultRetention
  else
    let retention := info.recordRetentionMinutes * nsPerMinute
    if retention > defaultRetention then defaultRetention else retention

/-- config.go pathConfigFor. -/
def pathConfigFor (info : CameraInfo) (rtspURL : String) (defaultRetention : Int) :
    PathConfig :=
  let cfg : PathConfig := { source := rtspURL, sourceOnDemand := false }
  if ¬ info.recordEnabled then
    { cfg with record := some false }
  else
    let perCameraRetention := retentionForCamera info defaultRetention
    if perCameraRetention ≠ defaultRetention then
      { cfg with recordDeleteAfter := formatDuration perCameraRetention }
    else cfg

/-- The path name a camera contributes (config.go lines 145-152):
    trimmed proxyPath, falling back to deviceID, with one leading slash
    stripped. -/
def pathNameFor (info : CameraInfo) : String :=
  let path := trimSpace info.proxyPath
  let path := if path = "" then info.deviceID else path
  stripLeadingSlash path

/-- A camera contributes a path entry iff its path name and its trimmed
    rtspUrl are both non-empty (config.go lines 144-158). -/
def cameraIncluded (info : CameraInfo) : Bool :=
  pathNameFor info ≠ "" && trimSpace info.rtspURL ≠ ""

/-- The per-camera body of the buildConfig loop (config.go lines
    144-159): skip a camera with an empty path name or an empty trimmed
    rtspUrl, otherwise assign its path entry. -/
def buildConfigStep (retention : Int) (cfg : Config) (info : CameraInfo) : Config :=
  let path := pathNameFor info
  if path = "" then cfg
  else
    let rtspURL := trimSpace info.rtspURL
    if rtspURL = "" then cfg
    else { cfg with paths := pathsAssign cfg.paths path (pathConfigFor info rtspURL retention) }

/-- config.go buildConfig. -/
def buildConfig (cameras : List CameraInfo) (retention : Int) : Config :=
  let base : Config := {
    rtspAddress := ":8554"
    hls := false
    webrtc := false
    api := true
    apiAddress := ":9997"
    pathDefaults := {
      record := true
      recordPath := "/recordings/%path/%Y-%m-%d_%H-%M-%S-%f"
      recordFormat := "fmp4"
      recordPartDuration := "1s"
      recordSegmentDuration := "1m"
      recordDeleteAfter := formatDuration retention }
    paths := [] }
  cameras.foldl (buildConfigStep retention) base

/-- A deterministic byte encoding of a Config, standing in for yaml.v3
    marshalConfig: equal configs marshal to identical bytes. -/
def marshalConfig (cfg : Config) : String :=
  reprStr cfg

/-- Generator.Sync (config.go lines 94-124) on the state visible to the
    claims.  The on-disk file is modelled by the Config its YAML parses
    to (`none` = missing or unparsable file); writing stores the desired
    config, and the yaml.v3 round trip (unmarshal of marshalConfig cfg
    deep-equals cfg on this struct) is reflected by storing cfg itself.
    The returned flag records whether the file was written and the
    reload/admin mutation attempted; configMatchesFile (lines 196-211)
    short-circuits both when the parsed file deep-equals the desired
    config. -/
def syncStep (cameras : List CameraInfo) (retention : Int)
    (file : Option Config) : Option Config × Bool :=
  let cfg := buildConfig cameras retention
  let existingEqual :=
    match file with
    | none => false
    | some existing => existing = cfg
  if existingEqual then (file, false)
  else (some cfg, true)

/-! ## SRT URL candidate construction (internal/uplink/srt.go)

The net/url primitives the code relies on (QueryEscape, Values.Encode,
ParseQuery, URL.String host escaping, Parse) are embedded at the
character level.  Characters at or above U+0080 are carried verbatim
where Go would percent-encode their UTF-8 bytes; both encodings round
trip, and none of the separator characters the parsers split on is
affected. -/

/-- Upper-case hexadecimal digit. -/
def hexDigitUpper (n : Nat) : Char :=
  if n < 10 then Char.ofNat ('0'.toNat + n) else Char.ofNat ('A'.toNat + (n - 10))

/-- Characters QueryEscape leaves unescaped (RFC 3986 unreserved). -/
def isUnreservedChar (c : Char) : Bool :=
  ('A' ≤ c ∧ c ≤ 'Z') || ('a' ≤ c ∧ c ≤ 'z') || ('0' ≤ c ∧ c ≤ '9') ||
  c = '-' || c = '_' || c = '.' || c = '~'

/-- Per-character url.QueryEscape. -/
def escapeQueryChar (c : Char) : List Char :=
  if isUnreservedChar c then [c]
  else if c = ' ' then ['+']
  else if c.toNat ≥ 128 then [c]
  else ['%', hexDigitUpper (c.toNat / 16), hexDigitUpper (c.toNat % 16)]

/-- url.QueryEscape. -/
def queryEscape (s : String) : String :=
  ⟨s.data.flatMap escapeQueryChar⟩

/-- Value of one hexadecimal digit. -/
def hexVal (c : Char) : Option Nat :=
  let n := c.toNat
  if 48 ≤ n ∧ n ≤ 57 then some (n - 48)
  else if 65 ≤ n ∧ n ≤ 70 then some (n - 55)
  else if 97 ≤ n ∧ n ≤ 102 then some (n - 87)
  else none

/-- url.QueryUnescape on the character list: percent-decodes %XX, maps
    plus to space, fails on a malformed escape. -/
def unescapeChars : List Char → Option (List Char)
  | [] => some []
  | c :: rest =>
    if c = '%' then
      match rest with
      | h1 :: h2 :: rest2 =>
        match hexVal h1, hexVal h2 with
        | some a, some b => (unescapeChars rest2).map (fun t => Char.ofNat (16 * a + b) :: t)
        | _, _ => none
      | _ => none
    else if c = '+' then (unescapeChars rest).map (fun t => ' ' :: t)
    else (unescapeChars rest).map (fun t => c :: t)

/-- url.QueryUnescape. -/
def unescapeComponent (s : String) : Option String :=
  (unescapeChars s.data).map (fun l => ⟨l⟩)

/-- url.Values, with each key holding its single Set value (the code only
    uses Set, never Add). -/
abbrev QueryValues := List (String × String)

/-- Values.Set. -/
def valuesSet (vs : QueryValues) (k v : String) : QueryValues :=
  if (vs.map Prod.fst).contains k then
    vs.map (fun p => if p.1 = k then (k, v) else p)
  else vs ++ [(k, v)]

/-- Values.Del. -/
def valuesDel (vs : QueryValues) (k : String) : QueryValues :=
  vs.filter (fun p => p.1 ≠ k)

/-- Lexicographic character-list order (the byte order sort.Strings
    uses; identical on ASCII). -/
def charsLe : List Char → List Char → Bool
  | [], _ => true
  | _ :: _, [] => false
  | a :: as, b :: bs => if a < b then true else if b < a then false else charsLe as bs

/-- Key order of Values.Encode. -/
def strLe (a b : String) : Bool :=
  charsLe a.data b.data

/-- Insertion of a pair into a key-sorted list (the sort underlying
    Values.Encode; keys are unique, so stability is irrelevant). -/
def insertByKey (p : String × String) : QueryValues → QueryValues
  | [] => [p]
  | q :: rest => if strLe p.1 q.1 then p :: q :: rest else q :: insertByKey p rest

/-- Sort a value list by key (sort.Strings over the map keys in
    Values.Encode). -/
def sortByKey (vs : QueryValues) : QueryValues :=
  vs.foldr insertByKey []

/-- One key=value pair as Values.Encode renders it. -/
def renderPair (p : String × String) : List Char :=
  (queryEscape p.1).data ++ '=' :: (queryEscape p.2).data

/-- Values.Encode: keys sorted, each pair escaped and joined with
    ampersands. -/
def valuesEncode (vs : QueryValues) : String :=
  ⟨List.intercalate ['&'] ((sortByKey vs).map renderPair)⟩

/-- The per-iteration strings.Cut(query, "&") loop of url.ParseQuery:
    the pieces between ampersands. -/
def splitAmp (l : List Char) : List (List Char) :=
  splitOnChar '&' l

/-- One key=value piece of a query string as url.ParseQuery treats it:
    strings.Cut at the first equals sign, both halves unescaped; none
    models the error paths (a semicolon anywhere, a malformed escape). -/
def parsePiece (piece : List Char) : Option (String × String) :=
  if piece.contains ';' then none
  else
    let k := piece.takeWhile (· ≠ '=')
    let v := if k.length = piece.length then [] else piece.drop (k.length + 1)
    match unescapeChars k, unescapeChars v with
    | some k, some v => some (⟨k⟩, ⟨v⟩)
    | _, _ => none

/-- url.Values.Query-side parsing (url.ParseQuery with errorful pairs
    skipped, which is what URL.Query() observes): split on ampersands,
    drop empty pieces and pieces that fail to parse. -/
def parseQueryLenient (s : String) : QueryValues :=
  (splitAmp s.data).foldl
    (fun acc piece =>
      if piece.isEmpty then acc
      else
        match parsePiece piece with
        | some kv => acc ++ [kv]
        | none => acc)
    []

/-- url.ParseQuery as checked by applySRTQueryOptions: any errorful pair
    (semicolon or malformed escape) makes the whole parse fail, because
    the caller discards the result when err is non-nil. -/
def goParseQueryStrict (s : String) : Option QueryValues :=
  (splitAmp s.data).foldl
    (fun acc piece =>
      match acc with
      | none => none
      | some vs =>
        if piece.isEmpty then some vs
        else
          match parsePiece piece with
          | some kv => some (vs ++ [kv])
          | none => none)
    (some [])

/-- srt.go SRTQueryOptions. -/
structure SRTQueryOptions where
  latency : Int := 0
  packetSize : Int := 0
  maxBW : Int := 0
  rcvBuf : Int := 0
  passphrase : String := ""
  pbKeyLen : Int := 0
  peerLatency : Int := 0
  rcvLatency : Int := 0
  connTimeout : Int := 0
  sndBuf : Int := 0
  inputBW : Int := 0
  oheadBW : Int := 0
  tlPktDrop : Bool := false
  extraParams : String := ""
  deriving DecidableEq, Repr

/-- manager.go defaultSRTLatencyMS. -/
def defaultSRTLatencyMS : Int := 200

/-- manager.go defaultSRTPacketSize. -/
def defaultSRTPacketSize : Int := 1316

/-- srt.go withSRTDefaults. -/
def withSRTDefaults (opts : SRTQueryOptions) : SRTQueryOptions :=
  let opts := if opts.latency = 0 then { opts with latency := defaultSRTLatencyMS } else opts
  if opts.packetSize = 0 then { opts with packetSize := defaultSRTPacketSize } else opts

/-- srt.go srtOptionsEqual (field-by-field comparison). -/
def srtOptionsEqual (a b : SRTQueryOptions) : Bool :=
  a.latency = b.latency && a.packetSize = b.packetSize && a.maxBW = b.maxBW &&
  a.rcvBuf = b.rcvBuf && a.passphrase = b.passphrase && a.pbKeyLen = b.pbKeyLen &&
  a.peerLatency = b.peerLatency && a.rcvLatency = b.rcvLatency &&
  a.connTimeout = b.connTimeout && a.sndBuf = b.sndBuf && a.inputBW = b.inputBW &&
  a.oheadBW = b.oheadBW && a.tlPktDrop = b.tlPktDrop && a.extraParams = b.extraParams

/-- srt.go srtOptionCandidates; `compatEnabled` is the ambient
    UPLINK_SRT_COMPAT_PROFILE boolean. -/
def srtOptionCandidates (base0 : SRTQueryOptions) (compatEnabled : Bool) :
    List SRTQueryOptions :=
  let base := withSRTDefaults base0
  let candidates := [base]
  let stripped := { base with
    peerLatency := 0, rcvLatency := 0, tlPktDrop := false, extraParams := "" }
  let candidates :=
    if ¬ srtOptionsEqual stripped base then candidates ++ [stripped] else candidates
  let defaultLatency := { stripped with latency := defaultSRTLatencyMS }
  let candidates :=
    if ¬ srtOptionsEqual defaultLatency stripped then candidates ++ [defaultLatency]
    else candidates
  if ¬ compatEnabled then candidates
  else
    let compat := { stripped with
      latency := 80, peerLatency := 500, rcvLatency := 500, tlPktDrop := true }
    if ¬ srtOptionsEqual compat base && ¬ srtOptionsEqual compat stripped &&
        ¬ srtOptionsEqual compat defaultLatency then
      candidates ++ [compat]
    else candidates

/-- srt.go applySRTQueryOptions: conditional tuned parameters followed by
    the merged extra parameters (last write wins per key). -/
def applySRTQueryOptions (vs0 : QueryValues) (opts : SRTQueryOptions) : QueryValues :=
  let vs := vs0
  let vs := if opts.passphrase ≠ "" then valuesSet vs "passphrase" opts.passphrase else vs
  let vs := if opts.pbKeyLen > 0 then valuesSet vs "pbkeylen" (toString opts.pbKeyLen) else vs
  let vs := if opts.peerLatency > 0 then valuesSet vs "peerlatency" (toString opts.peerLatency) else vs
  let vs := if opts.rcvLatency > 0 then valuesSet vs "rcvlatency" (toString opts.rcvLatency) else vs
  let vs := if opts.connTimeout > 0 then valuesSet vs "conntimeo" (toString opts.connTimeout) else vs
  let vs := if opts.sndBuf > 0 then valuesSet vs "sndbuf" (toString opts.sndBuf) else vs
  let vs := if opts.inputBW > 0 then valuesSet vs "inputbw" (toString opts.inputBW) else vs
  let vs := if opts.oheadBW > 0 then valuesSet vs "oheadbw" (toString opts.oheadBW) else vs
  let vs := if opts.tlPktDrop then valuesSet vs "tlpktdrop" "1" else vs
  let extraParams := trimSpace opts.extraParams
  if extraParams = "" then vs
  else
    let extraParams := trimLeftQueryMarks extraParams
    match goParseQueryStrict extraParams with
    | none => vs
    | some parsed => parsed.foldl (fun acc p => valuesSet acc p.1 p.2) vs

/-- srt.go buildSRTQueryValues. -/
def buildSRTQueryValues (streamID : String) (opts : SRTQueryOptions) : QueryValues :=
  let vs : QueryValues := []
  let vs := valuesSet vs "streamid" streamID
  let vs := valuesSet vs "mode" "caller"
  let vs := valuesSet vs "transtype" "live"
  let vs := if opts.packetSize > 0 then valuesSet vs "pkt_size" (toString opts.packetSize) else vs
  let vs := if opts.latency > 0 then valuesSet vs "latency" (toString opts.latency) else vs
  let vs := if opts.maxBW > 0 then valuesSet vs "maxbw" (toString opts.maxBW) else vs
  let vs := if opts.rcvBuf > 0 then valuesSet vs "rcvbuf" (toString opts.rcvBuf) else vs
  applySRTQueryOptions vs opts

/-- srt.go streamIDForPath. -/
def streamIDForPath (path : String) : String :=
  let trimmed := trimSpace path
  if List.isPrefixOf "publish:".data trimmed.data then trimmed
  else "publish:" ++ trimmed

/-- srt.go isSafeRawStreamID. -/
def isSafeRawStreamID (streamID : String) : Bool :=
  streamID.data.all fun r =>
    ('a' ≤ r ∧ r ≤ 'z') || ('A' ≤ r ∧ r ≤ 'Z') || ('0' ≤ r ∧ r ≤ '9') ||
    r = ':' || r = '/' || r = '-' || r = '_' || r = '.' || r = '~'

/-- Characters url.URL.String leaves unescaped in the host
    (encodeHost: unreserved, sub-delims, and the host-extra set). -/
def isHostSafeChar (c : Char) : Bool :=
  isUnreservedChar c ||
  c = '!' || c = '$' || c = '&' || c = Char.ofNat 39 || c = '(' || c = ')' ||
  c = '*' || c = '+' || c = ',' || c = ';' || c = '=' ||
  c = ':' || c = '[' || c = ']' || c = '<' || c = '>' || c = '"'

/-- Per-character host escaping of url.URL.String. -/
def escapeHostChar (c : Char) : List Char :=
  if isHostSafeChar c then [c]
  else if c.toNat ≥ 128 then [c]
  else ['%', hexDigitUpper (c.toNat / 16), hexDigitUpper (c.toNat % 16)]

/-- Host part as url.URL.String renders it. -/
def escapeHost (s : String) : String :=
  ⟨s.data.flatMap escapeHostChar⟩

/-- srt.go buildSRTURL: url.URL{Scheme: "srt", Host: host:port,
    RawQuery: rawQuery}.String(). -/
def buildSRTURL (host : String) (port : Int) (rawQuery : String) : String :=
  "srt://" ++ escapeHost (host ++ ":" ++ toString port) ++
    (if rawQuery = "" then "" else "?" ++ rawQuery)

/-- srt.go buildSRTQueryWithRawStreamID. -/
def buildSRTQueryWithRawStreamID (values : QueryValues) (streamID : String) : String :=
  let clone := valuesDel values "streamid"
  let encoded := valuesEncode clone
  if encoded = "" then "streamid=" ++ streamID
  else encoded ++ "&streamid=" ++ streamID

/-- srt.go buildSRTURLVariants. -/
def buildSRTURLVariants (host : String) (port : Int) (path : String)
    (opts : SRTQueryOptions) : List String :=
  let streamID := streamIDForPath path
  let queryValues := buildSRTQueryValues streamID opts
  let urls := [buildSRTURL host port (valuesEncode queryValues)]
  if isSafeRawStreamID streamID then
    urls ++ [buildSRTURL host port (buildSRTQueryWithRawStreamID queryValues streamID)]
  else urls

/-- Substring of everything after the first occurrence of "://"; none
    when absent. -/
def afterSchemeSep (s : List Char) : Option (List Char) :=
  match s with
  | [] => none
  | ':' :: '/' :: '/' :: rest => some rest
  | _ :: rest => afterSchemeSep rest

/-- Authority component: everything up to the first slash, question mark
    or hash. -/
def takeAuthority (s : List Char) : List Char :=
  s.takeWhile fun c => c ≠ '/' ∧ c ≠ '?' ∧ c ≠ '#'

/-- Drop the userinfo part (through the last at-sign) of an authority. -/
def dropUserinfo (auth : List Char) : List Char :=
  if auth.contains '@' then
    ((auth.reverse.takeWhile (· ≠ '@')).reverse)
  else auth

/-- url.Parse(s).Host for a string containing "://", as used by
    normalizeSRTInputs; none models a parse error (whitespace in the
    authority).  Percent-unescaping of the host is not modelled (no
    claim depends on it). -/
def goURLHost (s : String) : Option String :=
  match afterSchemeSep s.data with
  | none => some ""
  | some rest =>
    let auth := takeAuthority rest
    if auth.any isGoSpace then none else some ⟨dropUserinfo auth⟩

/-- srt.go parseInt / parsePort: Atoi of the trimmed string, requiring a
    positive value. -/
def parsePort (port : String) : Option Int :=
  let port := trimSpace port
  if port = "" then none
  else
    match goAtoi (trimSpace port) with
    | none => none
    | some v => if v ≤ 0 then none else some v

/-- net.SplitHostPort: host and port split at the last colon, with
    bracketed IPv6 hosts; none models its error returns. -/
def netSplitHostPort (s : List Char) : Option (List Char × List Char) :=
  match s with
  | '[' :: rest =>
    let host := rest.takeWhile (· ≠ ']')
    let after := rest.drop (host.length)
    match after with
    | ']' :: ':' :: port =>
      if port.contains ':' ∨ port.contains '[' ∨ port.contains ']' ∨
          host.contains '[' then none
      else some (host, port)
    | _ => none
  | _ =>
    if ¬ s.contains ':' then none
    else
      let port := (s.reverse.takeWhile (· ≠ ':')).reverse
      let host := s.take (s.length - port.length - 1)
      if host.contains ':' ∨ host.contains '[' ∨ host.contains ']' ∨
          port.contains '[' ∨ port.contains ']' then none
      else some (host, port)

/-- srt.go splitHostPort: url.Parse("//" + host) to locate the
    authority, then net.SplitHostPort; every error path returns the
    input (or the authority) with port 0. -/
def splitHostPortGo (host : String) : String × Int :=
  let auth := takeAuthority host.data
  if auth.any isGoSpace then (host, 0)
  else
    let target := dropUserinfo auth
    if target.isEmpty then (host, 0)
    else
      match netSplitHostPort target with
      | none => (⟨target⟩, 0)
      | some (h, p) =>
        match parsePort ⟨p⟩ with
        | none => (⟨h⟩, 0)
        | some port => (⟨h⟩, port)

/-- Every character is checked against "://" containment
    (strings.Contains). -/
def containsSchemeSep (s : String) : Bool :=
  (afterSchemeSep s.data).isSome

/-- srt.go normalizeSRTInputs. -/
def normalizeSRTInputs (host : String) (port : Int) (path : String) :
    Option (String × Int × String) :=
  let normalizedHost := trimSpace host
  let normalizedPath := trimSlashes (trimSpace path)
  if normalizedHost = "" ∨ normalizedPath = "" then none
  else
    let step : Option String :=
      if containsSchemeSep normalizedHost then
        match goURLHost normalizedHost with
        | none => none
        | some parsedHost =>
          some (if parsedHost ≠ "" then parsedHost else normalizedHost)
      else some normalizedHost
    match step with
    | none => none
    | some normalizedHost =>
      let normalizedHost : String :=
        ⟨normalizedHost.data.takeWhile (· ≠ '/')⟩
      let hp := splitHostPortGo normalizedHost
      let normalizedHost := if hp.1 ≠ "" then hp.1 else normalizedHost
      let port := if port ≤ 0 ∧ hp.2 > 0 then hp.2 else port
      let port := if port ≤ 0 then defaultSRTPort else port
      let normalizedHost := trimSpace normalizedHost
      if normalizedHost = "" then none
      else some (normalizedHost, port, normalizedPath)

/-- Simplified url.Parse for validateSRTURL: scheme before the first
    "://", host from the authority (userinfo dropped), raw query between
    the first question mark and any fragment; none models a parse error
    (whitespace inside the authority). -/
def parseSRTURL (s : String) : Option (String × String × String) :=
  let scheme := s.data.takeWhile (· ≠ ':')
  match afterSchemeSep s.data with
  | none => none
  | some rest =>
    let auth := takeAuthority rest
    if auth.any isGoSpace then none
    else
      let afterAuth := rest.drop auth.length
      let beforeFrag := afterAuth.takeWhile (· ≠ '#')
      let query := (beforeFrag.dropWhile (· ≠ '?')).drop 1
      some (⟨scheme⟩, ⟨dropUserinfo auth⟩, ⟨query⟩)

/-- parsed.Query().Get(key): first value of the key, empty when absent. -/
def queryGet (rawQuery : String) (key : String) : String :=
  match (parseQueryLenient rawQuery).find? (fun p => p.1 = key) with
  | some p => p.2
  | none => ""

/-- srt.go validateSRTURL (lines 300-316). -/
def validateSRTURL (raw : String) : Bool :=
  match parseSRTURL raw with
  | none => false
  | some parsed =>
    parsed.1 = "srt" && parsed.2.1 ≠ "" && trimSpace (queryGet parsed.2.2 "streamid") ≠ ""

/-- srt.go BuildSRTURLCandidates (lines 37-61).  `opts` is the ambient
    result of srtOptionsFromEnv and `compatEnabled` the ambient
    UPLINK_SRT_COMPAT_PROFILE flag, made explicit parameters. -/
def buildSRTURLCandidates (host : String) (port : Int) (path : String)
    (opts : SRTQueryOptions) (compatEnabled : Bool) : List String :=
  match normalizeSRTInputs host port path with
  | none => []
  | some norm =>
    let candidates := srtOptionCandidates opts compatEnabled
    candidates.foldl
      (fun urls candidate =>
        (buildSRTURLVariants norm.1 norm.2.1 norm.2.2 candidate).foldl
          (fun urls srtURL =>
            if ¬ validateSRTURL srtURL then urls
            else if urls.contains srtURL then urls
            else urls ++ [srtURL])
          urls)
      []

/-! ## Helper predicates used by the claim statements -/

/-- The ambient options never overwrite the streamid key: the merged
    extra parameters either do not apply (empty or unparsable) or carry
    no streamid pair. -/
def extrasKeepStreamID (opts : SRTQueryOptions) : Bool :=
  let ep := trimSpace opts.extraParams
  if ep = "" then true
  else
    match goParseQueryStrict (trimLeftQueryMarks ep) with
    | none => true
    | some parsed => parsed.all fun p => p.1 ≠ "streamid"

/-- Whether the Dahua scan hits an all-token (ALL, case-insensitive,
    or the literal star) anywhere in the request list. -/
def dahuaHasAllToken (analytics : List String) : Bool :=
  analytics.any fun a => isAllToken (trimSpace a)

/-- The trimmed requested codes that are known Dahua codes, in request
    order. -/
def dahuaValidRequested (analytics : List String) : List String :=
  (analytics.map trimSpace).filter fun n =>
    n ≠ "" && dahuaEventTypeSetMem (toLowerStr n)

/-- The trimmed requested codes that are known Hikvision codes, in
    request order. -/
def hikValidRequested (knownLower : List String) (analytics : List String) :
    List String :=
  (analytics.map trimSpace).filter fun n =>
    n ≠ "" && knownLower.contains (toLowerStr n)

/-- Engines that are enabled and whose Process call succeeds on the
    event: exactly those contribute derivations. -/
def succeedingEngines (engines : List Engine) (evt : AnalyticEvent) : List Engine :=
  engines.filter fun e => e.enabled && engineSucceeds e evt

/-! # Theorems -/

/-! ## C1: uplink reference counting -/

theorem sameRequest_refl (req : UplinkRequest) : sameRequest req req = true := by
  simp [sameRequest]

theorem iterate_startUplinkStep (req : UplinkRequest) : ∀ n : Nat,
    (startUplinkStep req)^[n] none =
      if n = 0 then none
      else some { payload := req, containerStatus := "running", startCount := n, stopCount := 0 } := by
  intro n
  induction n with
  | zero => simp
  | succ n ih =>
    rw [Function.iterate_succ_apply', ih]
    by_cases h : n = 0
    · subst h; simp [startUplinkStep]
    · simp [h, startUplinkStep, sameRequest_refl]

theorem iterate_stopUplinkStep_none : ∀ m : Nat, stopUplinkStep^[m] none = none := by
  intro m
  induction m with
  | zero => simp
  | succ m ih => rw [Function.iterate_succ_apply]; exact ih

theorem iterate_stopUplinkStep_some (req : UplinkRequest) : ∀ (m s t : Nat), t < s →
    stopUplinkStep^[m]
        (some { payload := req, containerStatus := "running", startCount := s, stopCount := t }) =
      if t + m < s then
        some { payload := req, containerStatus := "running", startCount := s, stopCount := t + m }
      else none := by
  intro m
  induction m with
  | zero => intro s t h; simp [h]
  | succ m ih =>
    intro s t h
    rw [Function.iterate_succ_apply]
    by_cases hlast : s ≤ t + 1
    · have hs : s = t + 1 := by omega
      simp only [stopUplinkStep, if_pos hlast]
      rw [iterate_stopUplinkStep_none]
      have : ¬ (t + (m + 1) < s) := by omega
      simp [this]
    · have h1 : t + 1 < s := by omega
      simp only [stopUplinkStep, if_neg hlast]
      rw [ih s (t + 1) h1]
      have harith : t + 1 + m = t + (m + 1) := by omega
      rw [harith]

/-- C1: after N Starts with identical payload followed by M Stops on the
    same key (no TTL or reconcile interleaved), the uplink entry exists
    with its process running — recorded startCount N, stopCount M — iff
    M < N; the first Start records startCount 1, every further identical
    Start increments it, every Stop increments stopCount, and as soon as
    stopCount reaches startCount the process is terminated and the entry
    deleted. -/
theorem uplink_refcount_start_stop (req : UplinkRequest) (n m : Nat) :
    stopUplinkStep^[m] ((startUplinkStep req)^[n] none) =
      if m < n then
        some { payload := req, containerStatus := "running", startCount := n, stopCount := m }
      else none := by
  rw [iterate_startUplinkStep]
  by_cases hn : n = 0
  · subst hn
    simp [iterate_stopUplinkStep_none]
  · have hpos : 0 < n := Nat.pos_of_ne_zero hn
    simp only [if_neg hn]
    rw [iterate_stopUplinkStep_some req m n 0 hpos]
    simp

/-! ## C2: media-config Sync idempotence -/

/-- C2: Sync is idempotent.  The first Sync leaves the target file
    holding exactly the desired config built from the camera list; a
    second Sync with the same list sees the parsed file deep-equal the
    desired config, so it performs no write and no reload/admin
    mutation, and the on-disk bytes (the deterministic marshalling of
    the stored config) are unchanged. -/
theorem media_sync_idempotent (cameras : List CameraInfo) (retention : Int)
    (file0 : Option Config) :
    (syncStep cameras retention file0).1 = some (buildConfig cameras retention)
    ∧ syncStep cameras retention (syncStep cameras retention file0).1
        = ((syncStep cameras retention file0).1, false)
    ∧ (syncStep cameras retention (syncStep cameras retention file0).1).1.map marshalConfig
        = (syncStep cameras retention file0).1.map marshalConfig := by
  have h1 : (syncStep cameras retention file0).1 = some (buildConfig cameras retention) := by
    unfold syncStep
    cases file0 with
    | none => simp
    | some existing =>
      by_cases h : existing = buildConfig cameras retention <;> simp [h]
  have h2 : syncStep cameras retention (syncStep cameras retention file0).1
      = ((syncStep cameras retention file0).1, false) := by
    rw [h1]
    unfold syncStep
    simp
  exact ⟨h1, h2, by rw [h2]⟩

/-! ## C4: engine dispatch -/

theorem processAll_foldl (evt : AnalyticEvent) : ∀ (l : List Engine) (acc : List AnalyticEvent),
    l.foldl
        (fun out e =>
          if ¬ e.enabled then out
          else
            match e.run evt with
            | .ok derived => out ++ derived
            | _ => out)
        acc
      = acc ++ (succeedingEngines l evt).flatMap (fun e => engineDerived e evt) := by
  intro l
  induction l with
  | nil => intro acc; simp [succeedingEngines]
  | cons e t ih =>
    intro acc
    by_cases he : e.enabled
    · cases hr : e.run evt with
      | ok derived =>
        simp only [List.foldl_cons, he, not_true, if_neg, hr]
        rw [ih]
        simp [succeedingEngines, engineSucceeds, engineDerived, he, hr]
      | failed =>
        simp only [List.foldl_cons, he, hr]
        rw [ih]
        simp [succeedingEngines, engineSucceeds, he, hr]
      | panicked =>
        simp only [List.foldl_cons, he, hr]
        rw [ih]
        simp [succeedingEngines, engineSucceeds, he, hr]
    · simp only [List.foldl_cons, he]
      rw [ih]
      simp [succeedingEngines, he]

/-- C4: ProcessAll returns exactly the concatenation, in engine order, of
    the derived events of the enabled engines whose Process call
    succeeds; an engine that errors or panics (the recover turns a panic
    into an error) contributes nothing and does not stop the remaining
    engines; the returned error is always nil, and the embedding of
    ProcessAll is a total function (the recover keeps every panic inside
    the per-engine closure). -/
theorem processAll_concat_of_successes (engines : List Engine) (evt : AnalyticEvent) :
    processAll engines evt
      = ((succeedingEngines engines evt).flatMap (fun e => engineDerived e evt), none) := by
  unfold processAll
  by_cases h : engines.isEmpty
  · have : engines = [] := List.isEmpty_iff.mp h
    subst this
    simp [succeedingEngines]
  · simp only [h, if_neg, Bool.false_eq_true, not_false_eq_true]
    rw [processAll_foldl]
    simp

/-! ## C5: recordEnabled derivation -/

/-- C5: in the post-normalisation view of an accepted descriptor,
    recordEnabled is true iff recordRetentionMinutes is positive; a
    negative retention is clamped to 0 first; and whatever record_enabled
    value the JSON payload carried is overwritten by this derivation. -/
theorem record_enabled_iff_retention (tenant building floor devType devID : String)
    (decoded : CameraInfo) :
    ((normalizeInfoMessage tenant building floor devType devID decoded).recordEnabled = true ↔
      (normalizeInfoMessage tenant building floor devType devID decoded).recordRetentionMinutes > 0)
    ∧ (normalizeInfoMessage tenant building floor devType devID decoded).recordRetentionMinutes
        = max decoded.recordRetentionMinutes 0
    ∧ ∀ b : Bool,
        (normalizeInfoMessage tenant building floor devType devID
            { decoded with recordEnabled := b }).recordEnabled
          = (normalizeInfoMessage tenant building floor devType devID decoded).recordEnabled := by
  refine ⟨?_, ?_, ?_⟩
  · by_cases h1 : trimSpace decoded.proxyPath = "" <;>
      by_cases h2 : trimSpace decoded.centralPath = "" <;>
      by_cases h3 : decoded.recordRetentionMinutes < 0 <;>
      by_cases h4 : decoded.preRollSeconds < 0 <;>
      simp [normalizeInfoMessage, h1, h2, h3, h4]
  · by_cases h1 : trimSpace decoded.proxyPath = "" <;>
      by_cases h2 : trimSpace decoded.centralPath = "" <;>
      by_cases h3 : decoded.recordRetentionMinutes < 0 <;>
      by_cases h4 : decoded.preRollSeconds < 0 <;>
      simp [normalizeInfoMessage, h1, h2, h3, h4] <;> omega
  · intro b
    by_cases h1 : trimSpace decoded.proxyPath = "" <;>
      by_cases h2 : trimSpace decoded.centralPath = "" <;>
      by_cases h3 : decoded.recordRetentionMinutes < 0 <;>
      by_cases h4 : decoded.preRollSeconds < 0 <;>
      simp [normalizeInfoMessage, h1, h2, h3, h4]

/-! ## C6: centralPath default (corrected: no lower-casing) -/

/-- C6 counterexample: for the descriptor with empty centralPath under
    identity Acme/hq/cam1, normalisation stores "Acme/hq/cam1" — the
    slash-join of the topic components without lower-casing — which
    differs from the lower-cased value the claim specifies. -/
theorem central_path_not_lowercased :
    (normalizeInfoMessage "Acme" "hq" "1" "ipcam" "cam1" {}).centralPath = "Acme/hq/cam1"
    ∧ (normalizeInfoMessage "Acme" "hq" "1" "ipcam" "cam1" {}).centralPath
        ≠ toLowerStr (pathJoin ["Acme", "hq", "cam1"]) := by
  constructor
  · rfl
  · intro h
    exact absurd h (by decide)

/-- C6 amended: for every descriptor whose centralPath is empty after
    trimming, normalisation sets centralPath to the identity components
    tenant/building/deviceId, each trimmed of spaces and slashes and
    slash-joined (path.Join); the components are taken verbatim from the
    topic, without lower-casing. -/
theorem central_path_default_amended (tenant building floor devType devID : String)
    (decoded : CameraInfo) (h : trimSpace decoded.centralPath = "") :
    (normalizeInfoMessage tenant building floor devType devID decoded).centralPath
      = pathJoin [trimSlashes (trimSpace tenant), trimSlashes (trimSpace building),
          trimSlashes (trimSpace devID)] := by
  simp only [normalizeInfoMessage, centralPathFor]
  split_ifs <;> simp_all

theorem central_path_default_amended_witness :
    trimSpace ("" : String) = ""
    ∧ (normalizeInfoMessage "Acme" "hq" "1" "ipcam" "cam-001" {}).centralPath
        = pathJoin [trimSlashes (trimSpace "Acme"), trimSlashes (trimSpace "hq"),
            trimSlashes (trimSpace "cam-001")] :=
  ⟨by decide, central_path_default_amended "Acme" "hq" "1" "ipcam" "cam-001" {} (by decide)⟩

/-! ## C8: status interval (corrected: 0 does not disable the loop) -/

/-- C8 counterexample: configuring CAMBUS_STATUS_INTERVAL_SECONDS=0 does
    not disable the periodic status loop — envDurationSeconds rejects the
    non-positive value and falls back to the 30-second default, and Run
    starts the loop because the interval is positive. -/
theorem status_interval_zero_not_disabled :
    statusIntervalOf "0" = 30 * nsPerSecond
    ∧ statusLoopStarted (statusIntervalOf "0") = true := by
  constructor <;> decide

/-- C8 amended: the periodic status loop runs every
    statusIntervalSeconds with a default of 30 seconds; a configured
    value of 0 (like any non-positive or non-numeric value) is rejected
    in favour of the default, so the resulting interval is always
    positive and the loop is always started — the environment variable
    cannot disable periodic status publishing. -/
theorem status_interval_amended (raw : String) :
    statusIntervalOf "" = 30 * nsPerSecond
    ∧ 0 < statusIntervalOf raw
    ∧ statusLoopStarted (statusIntervalOf raw) = true := by
  have hpos : 0 < statusIntervalOf raw := by
    by_cases h1 : trimSpace raw = ""
    · simp [statusIntervalOf, envDurationSeconds, h1, nsPerSecond]
    · cases hat : goAtoi (trimSpace raw) with
      | none => simp [statusIntervalOf, envDurationSeconds, h1, hat, nsPerSecond]
      | some sec =>
        by_cases hs : sec ≤ 0
        · simp [statusIntervalOf, envDurationSeconds, h1, hat, hs, nsPerSecond]
        · have hsec : 0 < sec := by omega
          simp only [statusIntervalOf, envDurationSeconds, h1, if_neg, hat, hs,
            ite_false, nsPerSecond]
          have : (0 : Int) < 1000000000 := by decide
          calc (0 : Int) = sec * 0 := by ring
            _ < sec * 1000000000 := by
                exact mul_lt_mul_of_pos_left this hsec
  refine ⟨by decide, hpos, ?_⟩
  simp only [statusLoopStarted, decide_eq_true_eq]
  omega

/-! ## C9: no snapshot payload on the bus -/

theorem snapshot_keys_not_serialised (e : AnalyticEvent) :
    "SnapshotB64" ∉ analyticEventJSONKeys (stripForBus e)
    ∧ "RawSnapshot" ∉ analyticEventJSONKeys (stripForBus e) := by
  simp only [analyticEventJSONKeys, stripForBus]
  constructor <;> (split_ifs <;> simp_all)

/-- C9: every payload the worker fan-out publishes to the bus — the
    original event and every engine-derived event — is serialised from a
    copy whose SnapshotB64 was cleared (and therefore omitted, being
    tagged omitempty), and RawSnapshot is never serialised (tagged "-"):
    no published payload contains either snapshot field. -/
theorem no_snapshot_on_bus (evt : AnalyticEvent) (engines : List Engine) :
    ∀ ks ∈ fanOutPublishedKeys evt engines,
      "SnapshotB64" ∉ ks ∧ "RawSnapshot" ∉ ks := by
  intro ks hks
  rcases List.mem_cons.mp hks with h | h
  · subst h; exact snapshot_keys_not_serialised evt
  · obtain ⟨d, _, rfl⟩ := List.mem_map.mp h
    exact snapshot_keys_not_serialised d

/-! ## C7: analytic-code selection (corrected: only Dahua honours ALL) -/

theorem dahuaScan_snd (l : List String) : (dahuaScan l).2 = dahuaHasAllToken l := by
  induction l with
  | nil => simp [dahuaScan, dahuaHasAllToken]
  | cons a t ih =>
    have hfalse : isAllToken "" = false := by decide
    by_cases h0 : trimSpace a = ""
    · simp [dahuaScan, dahuaHasAllToken, h0, hfalse, ih]
    · by_cases hall : isAllToken (trimSpace a) = true
      · simp [dahuaScan, dahuaHasAllToken, h0, hall]
      · have hall' : isAllToken (trimSpace a) = false := by
          revert hall; cases isAllToken (trimSpace a) <;> simp
        by_cases hmem : dahuaEventTypeSetMem (toLowerStr (trimSpace a)) = true
        · simp [dahuaScan, dahuaHasAllToken, h0, hall', hmem, ih]
        · simp [dahuaScan, dahuaHasAllToken, h0, hall', hmem, ih]

theorem dahuaScan_fst (l : List String) (h : dahuaHasAllToken l = false) :
    (dahuaScan l).1 = dahuaValidRequested l := by
  induction l with
  | nil => simp [dahuaScan, dahuaValidRequested]
  | cons a t ih =>
    have hhead : isAllToken (trimSpace a) = false := by
      simp only [dahuaHasAllToken, List.any_cons, Bool.or_eq_false_iff] at h
      exact h.1
    have htail : dahuaHasAllToken t = false := by
      simp only [dahuaHasAllToken, List.any_cons, Bool.or_eq_false_iff] at h
      exact h.2
    simp only [dahuaScan, dahuaValidRequested, List.map_cons, List.filter_cons]
    by_cases h0 : trimSpace a = ""
    · simp [h0, ih htail, dahuaValidRequested]
    · by_cases hmem : dahuaEventTypeSetMem (toLowerStr (trimSpace a)) = true
      · simp [h0, hhead, hmem, ih htail, dahuaValidRequested]
      · simp [h0, hhead, hmem, ih htail, dahuaValidRequested]

theorem hik_foldr_valid (knownLower : List String) (l : List String) :
    l.foldr
        (fun a acc =>
          let name := trimSpace a
          if name = "" then acc
          else if knownLower.contains (toLowerStr name) then name :: acc
          else acc)
        []
      = hikValidRequested knownLower l := by
  induction l with
  | nil => simp [hikValidRequested]
  | cons a t ih =>
    simp only [List.foldr_cons, ih, hikValidRequested, List.map_cons, List.filter_cons]
    by_cases h0 : trimSpace a = ""
    · simp [h0]
    · by_cases hmem : knownLower.contains (toLowerStr (trimSpace a)) = true
      · simp [h0, hmem]
      · simp [h0, hmem]

/-- C7 counterexample: the Hikvision driver does not honour the ALL
    token.  With request list ["ALL"] and the modelled known-code set
    (which contains crosslinedetection), the selection falls back to
    ["faceCapture"] instead of subscribing all known codes — the known
    code crosslinedetection is not selected. -/
theorem hik_all_token_ignored :
    hikSelectedEventCodes hikvisionEventTypeSetModel ["ALL"] = ["faceCapture"]
    ∧ "crosslinedetection" ∈ hikvisionEventTypeSetModel
    ∧ "crosslinedetection"
        ∉ (hikSelectedEventCodes hikvisionEventTypeSetModel ["ALL"]).map toLowerStr := by
  refine ⟨by decide, by decide, by decide⟩

/-- C7 amended: each vendor driver subscribes exactly the explicitly
    requested codes that lie in its known-code set (trimmed, matched
    case-insensitively), falling back to the vendor default
    (FaceDetection / faceCapture) when nothing valid was requested; a
    literal ALL or star selects all known codes in the Dahua driver
    only — the Hikvision driver has no ALL handling and treats such
    tokens as unknown codes. -/
theorem analytic_code_selection_amended (knownLower analytics : List String) :
    dahuaSelectedEventCodes analytics
      = (if dahuaHasAllToken analytics then DahuaEventTypes
         else if dahuaValidRequested analytics = [] then ["FaceDetection"]
         else dahuaValidRequested analytics)
    ∧ hikSelectedEventCodes knownLower analytics
      = (if hikValidRequested knownLower analytics = [] then ["faceCapture"]
         else hikValidRequested knownLower analytics) := by
  constructor
  · unfold dahuaSelectedEventCodes
    by_cases hall : dahuaHasAllToken analytics = true
    · rw [show (dahuaScan analytics) = ((dahuaScan analytics).1, (dahuaScan analytics).2) from rfl]
      simp [dahuaScan_snd, hall]
    · have hall' : dahuaHasAllToken analytics = false := by
        revert hall; cases dahuaHasAllToken analytics <;> simp
      rw [show (dahuaScan analytics) = ((dahuaScan analytics).1, (dahuaScan analytics).2) from rfl]
      simp only [dahuaScan_snd, dahuaScan_fst analytics hall', hall']
      by_cases hvalid : dahuaValidRequested analytics = []
      · simp [hvalid]
      · simp [hvalid, List.isEmpty_iff]
  · unfold hikSelectedEventCodes
    rw [hik_foldr_valid]
    by_cases hvalid : hikValidRequested knownLower analytics = []
    · simp [hvalid]
    · simp [hvalid, List.isEmpty_iff]

/-! ## C10: silent omissions in proxy-mode buildConfig -/

theorem buildConfigStep_of_not_included (retention : Int) (cfg : Config)
    (info : CameraInfo) (h : cameraIncluded info = false) :
    buildConfigStep retention cfg info = cfg := by
  by_cases h1 : pathNameFor info = ""
  · simp [buildConfigStep, h1]
  · by_cases h2 : trimSpace info.rtspURL = ""
    · simp [buildConfigStep, h1, h2]
    · exfalso
      simp [cameraIncluded, h1, h2] at h

theorem buildConfig_foldl_filter (retention : Int) : ∀ (l : List CameraInfo) (base : Config),
    (l.filter cameraIncluded).foldl (buildConfigStep retention) base
      = l.foldl (buildConfigStep retention) base := by
  intro l
  induction l with
  | nil => intro base; rfl
  | cons c t ih =>
    intro base
    by_cases hc : cameraIncluded c = true
    · simp only [List.filter_cons, hc, if_pos, List.foldl_cons]
      exact ih _
    · have hc' : cameraIncluded c = false := by
        revert hc; cases cameraIncluded c <;> simp
      simp only [List.filter_cons, hc', List.foldl_cons]
      rw [buildConfigStep_of_not_included retention base c hc']
      exact ih base

/-- C10: proxy-mode buildConfig silently omits cameras whose trimmed
    rtspUrl is empty and cameras whose path name (trimmed proxyPath,
    falling back to deviceId, with one leading slash stripped) is empty:
    the generated config equals the one built from the included cameras
    only, with no error value (buildConfig is total and returns a plain
    Config); and an included camera with recording disabled yields a
    path entry carrying an explicit record:false. -/
theorem media_build_config_omissions (cameras : List CameraInfo) (retention : Int)
    (info : CameraInfo) (hinc : cameraIncluded info = true)
    (hrec : info.recordEnabled = false) :
    buildConfig cameras retention = buildConfig (cameras.filter cameraIncluded) retention
    ∧ (buildConfig [info] retention).paths
        = [(pathNameFor info,
            { source := trimSpace info.rtspURL, sourceOnDemand := false,
              record := some false, recordDeleteAfter := "" })] := by
  constructor
  · unfold buildConfig
    rw [buildConfig_foldl_filter]
  · have hinc' := hinc
    simp only [cameraIncluded, Bool.and_eq_true, ne_eq, decide_not, Bool.not_eq_false,
      decide_eq_true_eq] at hinc'
    obtain ⟨hpath, hrtsp⟩ := hinc'
    unfold buildConfig buildConfigStep
    simp only [List.foldl_cons, List.foldl_nil]
    rw [if_neg (by simpa using hpath), if_neg (by simpa using hrtsp)]
    simp [pathsAssign, pathConfigFor, hrec]

/-! ## C3: SRT URL candidates — escaping lemmas -/

theorem hexVal_hexDigitUpper (n : Nat) (h : n < 16) : hexVal (hexDigitUpper n) = some n := by
  interval_cases n <;> decide

theorem hexDigitUpper_class (n : Nat) (h : n < 16) :
    hexDigitUpper n ≠ '&' ∧ hexDigitUpper n ≠ ';' ∧ hexDigitUpper n ≠ '=' ∧
    hexDigitUpper n ≠ '#' := by
  interval_cases n <;> refine ⟨by decide, by decide, by decide, by decide⟩

theorem isUnreserved_ne_pct_plus (c : Char) (h : isUnreservedChar c = true) :
    c ≠ '%' ∧ c ≠ '+' := by
  constructor <;> rintro rfl <;> exact absurd h (by decide)

theorem char_ge_128_ne_pct_plus (c : Char) (h : 128 ≤ c.toNat) : c ≠ '%' ∧ c ≠ '+' := by
  constructor <;> rintro rfl <;> exact absurd h (by decide)

theorem unescape_cons_plain (c : Char) (rest : List Char) (h1 : c ≠ '%') (h2 : c ≠ '+') :
    unescapeChars (c :: rest) = (unescapeChars rest).map (fun t => c :: t) := by
  match rest with
  | [] => simp [unescapeChars, h1, h2]
  | [a] => simp [unescapeChars, h1, h2]
  | a :: b :: t => simp [unescapeChars, h1, h2]

theorem unescape_cons_plus (rest : List Char) :
    unescapeChars ('+' :: rest) = (unescapeChars rest).map (fun t => ' ' :: t) := by
  match rest with
  | [] => simp [unescapeChars]
  | [a] => simp [unescapeChars]
  | a :: b :: t => simp [unescapeChars]

theorem unescape_escapeQueryChar (c : Char) (rest : List Char) :
    unescapeChars (escapeQueryChar c ++ rest) = (unescapeChars rest).map (fun t => c :: t) := by
  unfold escapeQueryChar
  by_cases h1 : isUnreservedChar c = true
  · obtain ⟨hp, hpl⟩ := isUnreserved_ne_pct_plus c h1
    simp only [h1, if_pos, List.cons_append, List.nil_append]
    exact unescape_cons_plain c rest hp hpl
  · by_cases h2 : c = ' '
    · subst h2
      have h1' : isUnreservedChar ' ' = false := by decide
      simp only [h1', Bool.false_eq_true, not_false_eq_true, ite_false, ite_true,
        List.cons_append, List.nil_append]
      exact unescape_cons_plus rest
    · by_cases h3 : 128 ≤ c.toNat
      · obtain ⟨hp, hpl⟩ := char_ge_128_ne_pct_plus c h3
        simp only [h1, h2, h3, if_neg, if_pos, Bool.false_eq_true, not_false_eq_true,
          ite_true, ite_false, List.cons_append, List.nil_append]
        exact unescape_cons_plain c rest hp hpl
      · have hlt : c.toNat < 128 := by omega
        have hdiv : c.toNat / 16 < 16 := by omega
        have hmod : c.toNat % 16 < 16 := Nat.mod_lt _ (by omega)
        simp only [h1, h2, h3, Bool.false_eq_true, not_false_eq_true, ite_false,
          List.cons_append, List.nil_append]
        rw [unescapeChars]
        simp only [if_pos, hexVal_hexDigitUpper _ hdiv, hexVal_hexDigitUpper _ hmod]
        have : 16 * (c.toNat / 16) + c.toNat % 16 = c.toNat := by omega
        rw [this, Char.ofNat_toNat]

theorem unescape_flatMap_escape (l : List Char) :
    unescapeChars (l.flatMap escapeQueryChar) = some l := by
  induction l with
  | nil => rfl
  | cons c t ih =>
    rw [List.flatMap_cons, unescape_escapeQueryChar, ih]
    rfl

theorem unescape_queryEscape (s : String) : unescapeComponent (queryEscape s) = some s := by
  simp only [unescapeComponent, queryEscape, unescape_flatMap_escape, Option.map_some]
  rfl

theorem escapeQueryChar_class (c : Char) : ∀ d ∈ escapeQueryChar c,
    d ≠ '&' ∧ d ≠ ';' ∧ d ≠ '=' ∧ d ≠ '#' := by
  intro d hd
  unfold escapeQueryChar at hd
  by_cases h1 : isUnreservedChar c = true
  · simp only [h1, if_pos, List.mem_singleton] at hd
    subst hd
    refine ⟨?_, ?_, ?_, ?_⟩ <;> rintro rfl <;> exact absurd h1 (by decide)
  · by_cases h2 : c = ' '
    · subst h2
      have h1' : isUnreservedChar ' ' = false := by decide
      simp only [h1', Bool.false_eq_true, not_false_eq_true, ite_false, ite_true,
        List.mem_singleton] at hd
      subst hd
      refine ⟨by decide, by decide, by decide, by decide⟩
    · by_cases h3 : 128 ≤ c.toNat
      · simp only [h1, h2, h3, Bool.false_eq_true, not_false_eq_true, ite_false, ite_true,
          List.mem_singleton] at hd
        subst hd
        refine ⟨?_, ?_, ?_, ?_⟩ <;> rintro rfl <;> exact absurd h3 (by decide)
      · have hdiv : c.toNat / 16 < 16 := by omega
        have hmod : c.toNat % 16 < 16 := Nat.mod_lt _ (by omega)
        simp only [h1, h2, h3, Bool.false_eq_true, not_false_eq_true, ite_false,
          List.mem_cons, List.mem_singleton, List.not_mem_nil, or_false] at hd
        rcases hd with rfl | rfl | rfl
        · refine ⟨by decide, by decide, by decide, by decide⟩
        · exact hexDigitUpper_class _ hdiv
        · exact hexDigitUpper_class _ hmod

theorem queryEscape_class (s : String) : ∀ d ∈ (queryEscape s).data,
    d ≠ '&' ∧ d ≠ ';' ∧ d ≠ '=' ∧ d ≠ '#' := by
  intro d hd
  simp only [queryEscape, List.mem_flatMap] at hd
  obtain ⟨c, _, hc⟩ := hd
  exact escapeQueryChar_class c d hc

theorem isHostSafe_class (c : Char) (h : isHostSafeChar c = true) :
    c ≠ '/' ∧ c ≠ '?' ∧ c ≠ '#' ∧ c ≠ '@' ∧ isGoSpace c = false := by
  refine ⟨?_, ?_, ?_, ?_, ?_⟩
  · rintro rfl; exact absurd h (by decide)
  · rintro rfl; exact absurd h (by decide)
  · rintro rfl; exact absurd h (by decide)
  · rintro rfl; exact absurd h (by decide)
  · by_contra hg
    have hg' : isGoSpace c = true := by revert hg; cases isGoSpace c <;> simp
    simp only [isGoSpace, Bool.or_eq_true, decide_eq_true_eq] at hg'
    rcases hg' with ((((rfl | rfl) | rfl) | rfl) | rfl) | rfl <;> exact absurd h (by decide)

theorem escapeHostChar_class (c : Char) : ∀ d ∈ escapeHostChar c,
    d ≠ '/' ∧ d ≠ '?' ∧ d ≠ '#' ∧ d ≠ '@' ∧ isGoSpace d = false := by
  intro d hd
  unfold escapeHostChar at hd
  by_cases h1 : isHostSafeChar c = true
  · simp only [h1, if_pos, List.mem_singleton] at hd
    subst hd
    exact isHostSafe_class d h1
  · by_cases h2 : 128 ≤ c.toNat
    · simp only [h1, h2, Bool.false_eq_true, not_false_eq_true, ite_false, ite_true,
        List.mem_singleton] at hd
      subst hd
      refine ⟨?_, ?_, ?_, ?_, ?_⟩
      · rintro rfl; exact absurd h2 (by decide)
      · rintro rfl; exact absurd h2 (by decide)
      · rintro rfl; exact absurd h2 (by decide)
      · rintro rfl; exact absurd h2 (by decide)
      · by_contra hg
        have hg' : isGoSpace d = true := by revert hg; cases isGoSpace d <;> simp
        simp only [isGoSpace, Bool.or_eq_true, decide_eq_true_eq] at hg'
        rcases hg' with ((((rfl | rfl) | rfl) | rfl) | rfl) | rfl <;> exact absurd h2 (by decide)
    · have hdiv : c.toNat / 16 < 16 := by omega
      have hmod : c.toNat % 16 < 16 := Nat.mod_lt _ (by omega)
      simp only [h1, h2, Bool.false_eq_true, not_false_eq_true, ite_false,
        List.mem_cons, List.mem_singleton, List.not_mem_nil, or_false] at hd
      have hexcls : ∀ n : Nat, n < 16 →
          hexDigitUpper n ≠ '/' ∧ hexDigitUpper n ≠ '?' ∧ hexDigitUpper n ≠ '#' ∧
          hexDigitUpper n ≠ '@' ∧ isGoSpace (hexDigitUpper n) = false := by
        intro n hn
        interval_cases n <;> refine ⟨by decide, by decide, by decide, by decide, by decide⟩
      rcases hd with rfl | rfl | rfl
      · refine ⟨by decide, by decide, by decide, by decide, by decide⟩
      · exact hexcls _ hdiv
      · exact hexcls _ hmod

theorem escapeHost_class (s : String) : ∀ d ∈ (escapeHost s).data,
    d ≠ '/' ∧ d ≠ '?' ∧ d ≠ '#' ∧ d ≠ '@' ∧ isGoSpace d = false := by
  intro d hd
  simp only [escapeHost, List.mem_flatMap] at hd
  obtain ⟨c, _, hc⟩ := hd
  exact escapeHostChar_class c d hc

theorem escapeHostChar_ne_nil (c : Char) : escapeHostChar c ≠ [] := by
  unfold escapeHostChar
  split_ifs <;> simp

theorem escapeHost_ne_empty (s : String) (h : s ≠ "") : escapeHost s ≠ "" := by
  have hdata : s.data ≠ [] := by
    intro hc
    exact h (String.ext (by simpa using hc))
  cases hs : s.data with
  | nil => exact absurd hs hdata
  | cons c t =>
    intro hcon
    have hd : (escapeHost s).data = [] := by rw [hcon]
    rw [escapeHost] at hd
    simp only [hs, List.flatMap_cons] at hd
    rcases List.append_eq_nil.mp hd with ⟨h1, _⟩
    exact escapeHostChar_ne_nil c h1

theorem safe_streamid_chars (sid : String) (h : isSafeRawStreamID sid = true) :
    ∀ d ∈ sid.data, d ≠ '&' ∧ d ≠ ';' ∧ d ≠ '=' ∧ d ≠ '#' ∧ d ≠ '%' ∧ d ≠ '+' := by
  intro d hd
  simp only [isSafeRawStreamID, List.all_eq_true] at h
  have hc := h d hd
  refine ⟨?_, ?_, ?_, ?_, ?_, ?_⟩ <;> rintro rfl <;> exact absurd hc (by decide)

theorem unescape_safe_chars (l : List Char)
    (h : ∀ d ∈ l, d ≠ '%' ∧ d ≠ '+') : unescapeChars l = some l := by
  induction l with
  | nil => rfl
  | cons c t ih =>
    obtain ⟨h1, h2⟩ := h c (List.mem_cons_self c t)
    rw [unescape_cons_plain c t h1 h2, ih (fun d hd => h d (List.mem_cons_of_mem c hd))]
    rfl

/-! ## C3: query splitting and parsing lemmas -/

theorem splitOnChar_of_not_mem (sep : Char) : ∀ (l : List Char), sep ∉ l →
    splitOnChar sep l = [l] := by
  intro l
  induction l with
  | nil => intro _; rfl
  | cons c t ih =>
    intro h
    have hc : ¬ c = sep := fun hh => h (hh ▸ List.mem_cons_self c t)
    have ht : sep ∉ t := fun hh => h (List.mem_cons_of_mem c hh)
    simp [splitOnChar, hc, ih ht]

theorem splitOnChar_append (sep : Char) : ∀ (l1 rest : List Char), sep ∉ l1 →
    splitOnChar sep (l1 ++ sep :: rest) = l1 :: splitOnChar sep rest := by
  intro l1
  induction l1 with
  | nil =>
    intro rest _
    simp [splitOnChar]
  | cons c t ih =>
    intro rest h
    have hc : ¬ c = sep := fun hh => h (hh ▸ List.mem_cons_self c t)
    have ht : sep ∉ t := fun hh => h (List.mem_cons_of_mem c hh)
    simp [splitOnChar, hc, ih rest ht]

theorem intercalate_cons_of_ne_nil (sep : Char) (p : List Char) (ps : List (List Char))
    (h : ps ≠ []) :
    List.intercalate [sep] (p :: ps) = p ++ sep :: List.intercalate [sep] ps := by
  cases ps with
  | nil => exact absurd rfl h
  | cons q qs => simp [List.intercalate, List.intersperse]

theorem intercalate_singleton (sep : Char) (p : List Char) :
    List.intercalate [sep] [p] = p := by
  simp [List.intercalate]

theorem splitOnChar_intercalate (sep : Char) : ∀ (pieces : List (List Char)),
    pieces ≠ [] → (∀ p ∈ pieces, sep ∉ p) →
    splitOnChar sep (List.intercalate [sep] pieces) = pieces := by
  intro pieces
  induction pieces with
  | nil => intro h; exact absurd rfl h
  | cons p ps ih =>
    intro _ hall
    cases ps with
    | nil =>
      rw [intercalate_singleton]
      exact splitOnChar_of_not_mem sep p (hall p (List.mem_cons_self p []))
    | cons q qs =>
      rw [intercalate_cons_of_ne_nil sep p (q :: qs) (by simp)]
      rw [splitOnChar_append sep p _ (hall p (List.mem_cons_self p _))]
      rw [ih (by simp) (fun r hr => hall r (List.mem_cons_of_mem p hr))]

theorem intercalate_append_singleton (sep : Char) : ∀ (pieces : List (List Char)),
    pieces ≠ [] → ∀ x,
    List.intercalate [sep] (pieces ++ [x]) = List.intercalate [sep] pieces ++ sep :: x := by
  intro pieces
  induction pieces with
  | nil => intro h; exact absurd rfl h
  | cons p ps ih =>
    intro _ x
    cases ps with
    | nil =>
      rw [intercalate_singleton]
      simp only [List.nil_append, List.singleton_append]
      rw [intercalate_cons_of_ne_nil sep p [x] (by simp), intercalate_singleton]
    | cons q qs =>
      rw [List.cons_append, intercalate_cons_of_ne_nil sep p ((q :: qs) ++ [x]) (by simp),
        ih (by simp) x, intercalate_cons_of_ne_nil sep p (q :: qs) (by simp)]
      simp

theorem takeWhile_append_stop (p : Char → Bool) : ∀ (l1 : List Char) (x : Char)
    (l2 : List Char), (∀ c ∈ l1, p c = true) → p x = false →
    (l1 ++ x :: l2).takeWhile p = l1 := by
  intro l1
  induction l1 with
  | nil =>
    intro x l2 _ hx
    simp [List.takeWhile, hx]
  | cons c t ih =>
    intro x l2 hall hx
    have hc : p c = true := hall c (List.mem_cons_self c t)
    simp only [List.cons_append, List.takeWhile_cons, hc, ite_true]
    rw [ih x l2 (fun d hd => hall d (List.mem_cons_of_mem c hd)) hx]

theorem not_contains_of_not_mem (l : List Char) (c : Char) (h : c ∉ l) :
    l.contains c = false := by
  by_contra hcon
  have hc : l.contains c = true := by revert hcon; cases l.contains c <;> simp
  exact h (by simpa using hc)

theorem parsePiece_keyValue (ek ev ek2 ev2 : List Char)
    (hkcls : ∀ d ∈ ek, d ≠ ';' ∧ d ≠ '=') (hvcls : ∀ d ∈ ev, d ≠ ';')
    (hku : unescapeChars ek = some ek2) (hvu : unescapeChars ev = some ev2) :
    parsePiece (ek ++ '=' :: ev) = some (⟨ek2⟩, ⟨ev2⟩) := by
  unfold parsePiece
  have hsc : ';' ∉ ek ++ '=' :: ev := by
    intro hm
    rcases List.mem_append.mp hm with hm | hm
    · exact (hkcls _ hm).1 rfl
    · rcases List.mem_cons.mp hm with hm | hm
      · exact absurd hm (by decide)
      · exact (hvcls _ hm) rfl
  rw [not_contains_of_not_mem _ _ hsc]
  have htw : (ek ++ '=' :: ev).takeWhile (fun c => c ≠ '=') = ek := by
    apply takeWhile_append_stop
    · intro c hc
      simpa using (hkcls c hc).2
    · simp
  simp only [Bool.false_eq_true, if_neg, not_false_eq_true, htw]
  have hlen : ek.length ≠ (ek ++ '=' :: ev).length := by
    simp only [List.length_append, List.length_cons]
    omega
  rw [if_neg hlen]
  have hdrop : (ek ++ '=' :: ev).drop (ek.length + 1) = ev := by
    have : ek ++ '=' :: ev = (ek ++ ['=']) ++ ev := by simp
    rw [this]
    have hlen2 : (ek ++ ['=']).length = ek.length + 1 := by simp
    rw [← hlen2, List.drop_left]
  rw [hdrop, hku, hvu]

theorem renderPair_class (pr : String × String) :
    ∀ d ∈ renderPair pr, d ≠ '&' ∧ d ≠ ';' ∧ d ≠ '#' := by
  intro d hd
  unfold renderPair at hd
  rcases List.mem_append.mp hd with hm | hm
  · obtain ⟨h1, h2, _, h4⟩ := queryEscape_class pr.1 d hm
    exact ⟨h1, h2, h4⟩
  · rcases List.mem_cons.mp hm with rfl | hm
    · exact ⟨by decide, by decide, by decide⟩
    · obtain ⟨h1, h2, _, h4⟩ := queryEscape_class pr.2 d hm
      exact ⟨h1, h2, h4⟩

theorem parsePiece_renderPair (pr : String × String) :
    parsePiece (renderPair pr) = some pr := by
  obtain ⟨k, v⟩ := pr
  unfold renderPair
  rw [parsePiece_keyValue ((queryEscape k).data) ((queryEscape v).data) k.data v.data
    (fun d hd => ⟨(queryEscape_class k d hd).2.1, (queryEscape_class k d hd).2.2.1⟩)
    (fun d hd => (queryEscape_class v d hd).2.1)
    (unescape_flatMap_escape k.data) (unescape_flatMap_escape v.data)]

theorem renderPair_ne_nil (pr : String × String) : renderPair pr ≠ [] := by
  unfold renderPair
  simp

theorem foldl_lenient_renderPairs : ∀ (prs : QueryValues) (acc : QueryValues),
    (prs.map renderPair).foldl
        (fun acc piece =>
          if piece.isEmpty then acc
          else
            match parsePiece piece with
            | some kv => acc ++ [kv]
            | none => acc)
        acc
      = acc ++ prs := by
  intro prs
  induction prs with
  | nil => intro acc; simp
  | cons pr t ih =>
    intro acc
    have hne : (renderPair pr).isEmpty = false := by
      have := renderPair_ne_nil pr
      cases h : renderPair pr with
      | nil => exact absurd h this
      | cons a b => rfl
    simp only [List.map_cons, List.foldl_cons, hne, Bool.false_eq_true, if_neg,
      not_false_eq_true, parsePiece_renderPair]
    rw [ih]
    simp

theorem parseQueryLenient_valuesEncode (vs : QueryValues) :
    parseQueryLenient (valuesEncode vs) = sortByKey vs := by
  unfold parseQueryLenient valuesEncode splitAmp
  by_cases hvs : sortByKey vs = []
  · simp [hvs, List.intercalate, splitOnChar]
  · have hne : (sortByKey vs).map renderPair ≠ [] := by
      simpa using hvs
    have hnosep : ∀ q ∈ (sortByKey vs).map renderPair, '&' ∉ q := by
      intro q hq
      obtain ⟨pr, _, rfl⟩ := List.mem_map.mp hq
      intro hm
      exact (renderPair_class pr '&' hm).1 rfl
    rw [show ((⟨List.intercalate ['&'] ((sortByKey vs).map renderPair)⟩ : String).data
        = List.intercalate ['&'] ((sortByKey vs).map renderPair)) from rfl]
    rw [splitOnChar_intercalate '&' _ hne hnosep]
    rw [foldl_lenient_renderPairs]
    simp

theorem insertByKey_perm (p : String × String) : ∀ (l : QueryValues),
    (insertByKey p l).Perm (p :: l) := by
  intro l
  induction l with
  | nil => exact List.Perm.refl _
  | cons q t ih =>
    unfold insertByKey
    by_cases hle : strLe p.1 q.1 = true
    · rw [hle]
      simp
    · have hle' : strLe p.1 q.1 = false := by revert hle; cases strLe p.1 q.1 <;> simp
      rw [hle']
      simp only [Bool.false_eq_true, if_neg, not_false_eq_true]
      exact (ih.cons q).trans (List.Perm.swap p q t)

theorem sortByKey_perm (l : QueryValues) : (sortByKey l).Perm l := by
  induction l with
  | nil => exact List.Perm.refl _
  | cons x t ih =>
    unfold sortByKey
    simp only [List.foldr_cons]
    exact (insertByKey_perm x _).trans (ih.cons x)

theorem find?_key_unique : ∀ (l : QueryValues) (k v : String),
    (l.map Prod.fst).Nodup → (k, v) ∈ l →
    l.find? (fun p => p.1 = k) = some (k, v) := by
  intro l
  induction l with
  | nil => intro k v _ hm; exact absurd hm (List.not_mem_nil _)
  | cons q t ih =>
    intro k v hnd hm
    by_cases hq : q.1 = k
    · have hqe : q = (k, v) := by
        rcases List.mem_cons.mp hm with he | hm
        · exact he.symm
        · exfalso
          have hk : k ∈ t.map Prod.fst := List.mem_map.mpr ⟨(k, v), hm, rfl⟩
          have := (List.nodup_cons.mp hnd).1
          exact this (hq ▸ hk)
      rw [List.find?_cons_of_pos _ (by simpa using hq), hqe]
    · have hm' : (k, v) ∈ t := by
        rcases List.mem_cons.mp hm with he | hm
        · exact absurd (congrArg Prod.fst he.symm) hq
        · exact hm
      rw [List.find?_cons_of_neg _ (by simpa using hq)]
      exact ih k v (List.nodup_cons.mp hnd).2 hm'

theorem queryGet_valuesEncode (vs : QueryValues) (k v : String)
    (hnd : (vs.map Prod.fst).Nodup) (hm : (k, v) ∈ vs) :
    queryGet (valuesEncode vs) k = v := by
  unfold queryGet
  rw [parseQueryLenient_valuesEncode]
  have hperm := sortByKey_perm vs
  have hnd' : ((sortByKey vs).map Prod.fst).Nodup :=
    ((hperm.map Prod.fst).nodup_iff).mpr hnd
  have hm' : (k, v) ∈ sortByKey vs := hperm.mem_iff.mpr hm
  rw [find?_key_unique _ k v hnd' hm']

theorem parsePiece_rawStreamID (sid : String) (hsafe : isSafeRawStreamID sid = true) :
    parsePiece ("streamid=".data ++ sid.data) = some ("streamid", sid) := by
  have hsplit : "streamid=".data ++ sid.data = "streamid".data ++ '=' :: sid.data := rfl
  rw [hsplit]
  rw [parsePiece_keyValue "streamid".data sid.data "streamid".data sid.data
    (by decide)
    (fun d hd => (safe_streamid_chars sid hsafe d hd).2.1)
    (by decide)
    (unescape_safe_chars sid.data
      (fun d hd => ⟨(safe_streamid_chars sid hsafe d hd).2.2.2.2.1,
        (safe_streamid_chars sid hsafe d hd).2.2.2.2.2⟩))]

theorem rawStreamID_piece_no_amp (sid : String) (hsafe : isSafeRawStreamID sid = true) :
    '&' ∉ "streamid=".data ++ sid.data := by
  intro hm
  rcases List.mem_append.mp hm with hm | hm
  · revert hm; decide
  · exact (safe_streamid_chars sid hsafe '&' hm).1 rfl

theorem rawStreamID_piece_ne_nil (sid : String) :
    ("streamid=".data ++ sid.data).isEmpty = false := by
  cases h : "streamid=".data ++ sid.data with
  | nil => simp at h
  | cons a b => rfl

theorem find?_append_none (pfn : String × String → Bool) :
    ∀ (l1 l2 : QueryValues), (∀ x ∈ l1, pfn x = false) →
    (l1 ++ l2).find? pfn = l2.find? pfn := by
  intro l1
  induction l1 with
  | nil => intro l2 _; rfl
  | cons q t ih =>
    intro l2 hall
    rw [List.cons_append, List.find?_cons_of_neg _ (by simp [hall q (List.mem_cons_self q t)]),
      ih l2 (fun x hx => hall x (List.mem_cons_of_mem q hx))]

theorem valuesDel_keys_ne (values : QueryValues) (k : String) :
    ∀ p ∈ valuesDel values k, p.1 ≠ k := by
  intro p hp
  have := List.of_mem_filter hp
  simpa using this

theorem valuesDel_mem (values : QueryValues) (k : String) :
    ∀ p ∈ valuesDel values k, p ∈ values := by
  intro p hp
  exact List.mem_of_mem_filter hp


theorem valuesDel_keys_nodup (values : QueryValues) (k : String)
    (hnd : (values.map Prod.fst).Nodup) :
    ((valuesDel values k).map Prod.fst).Nodup := by
  have hsub : List.Sublist ((valuesDel values k).map Prod.fst) (values.map Prod.fst) :=
    (List.filter_sublist values).map Prod.fst
  exact hnd.sublist hsub

theorem valuesEncode_nil : valuesEncode [] = "" := rfl

theorem queryGet_rawStreamID (values : QueryValues) (sid : String)
    (hsafe : isSafeRawStreamID sid = true) :
    queryGet (buildSRTQueryWithRawStreamID values sid) "streamid" = sid := by
  unfold queryGet buildSRTQueryWithRawStreamID
  by_cases henc : valuesEncode (valuesDel values "streamid") = ""
  · rw [if_pos henc]
    unfold parseQueryLenient splitAmp
    have hdata : ("streamid=" ++ sid).data = "streamid=".data ++ sid.data := by
      simp
    rw [hdata, splitOnChar_of_not_mem '&' _ (rawStreamID_piece_no_amp sid hsafe)]
    simp only [List.foldl_cons, List.foldl_nil, rawStreamID_piece_ne_nil sid,
      Bool.false_eq_true, if_neg, not_false_eq_true, parsePiece_rawStreamID sid hsafe]
    simp [List.find?]
  · rw [if_neg henc]
    have hpieces_ne : (sortByKey (valuesDel values "streamid")).map renderPair ≠ [] := by
      intro hc
      apply henc
      unfold valuesEncode
      rw [hc]
      rfl
    have hdata : (valuesEncode (valuesDel values "streamid") ++ "&streamid=" ++ sid).data
        = List.intercalate ['&']
            ((sortByKey (valuesDel values "streamid")).map renderPair)
          ++ '&' :: ("streamid=".data ++ sid.data) := by
      simp only [String.data_append, List.append_assoc]
      rfl
    unfold parseQueryLenient splitAmp
    rw [hdata, ← intercalate_append_singleton '&' _ hpieces_ne]
    have hnosep : ∀ q ∈ (sortByKey (valuesDel values "streamid")).map renderPair
        ++ ["streamid=".data ++ sid.data], '&' ∉ q := by
      intro q hq
      rcases List.mem_append.mp hq with hq | hq
      · obtain ⟨pr, _, rfl⟩ := List.mem_map.mp hq
        intro hm
        exact (renderPair_class pr '&' hm).1 rfl
      · rcases List.mem_cons.mp hq with rfl | hq
        · exact rawStreamID_piece_no_amp sid hsafe
        · exact absurd hq (List.not_mem_nil _)
    rw [splitOnChar_intercalate '&' _ (by simp) hnosep]
    rw [List.foldl_append, foldl_lenient_renderPairs]
    simp only [List.nil_append, List.foldl_cons, List.foldl_nil,
      rawStreamID_piece_ne_nil sid, Bool.false_eq_true, if_neg, not_false_eq_true,
      parsePiece_rawStreamID sid hsafe]
    rw [find?_append_none _ _ _ ?_]
    · simp [List.find?]
    · intro x hx
      have hx' : x ∈ valuesDel values "streamid" :=
        (sortByKey_perm _).mem_iff.mp hx
      simpa using valuesDel_keys_ne values "streamid" x hx'

theorem valuesSet_mem_keep (vs : QueryValues) (k v : String) (p : String × String)
    (hp : p ∈ vs) (hne : p.1 ≠ k) : p ∈ valuesSet vs k v := by
  unfold valuesSet
  by_cases hk : (vs.map Prod.fst).contains k = true
  · rw [if_pos hk]
    apply List.mem_map.mpr
    refine ⟨p, hp, ?_⟩
    simp [hne]
  · rw [if_neg hk]
    exact List.mem_append_left _ hp

theorem valuesSet_mem_self (vs : QueryValues) (k v : String) :
    (k, v) ∈ valuesSet vs k v := by
  unfold valuesSet
  by_cases hk : (vs.map Prod.fst).contains k = true
  · rw [if_pos hk]
    have hmem : k ∈ vs.map Prod.fst := by simpa using hk
    obtain ⟨q, hq, hqk⟩ := List.mem_map.mp hmem
    apply List.mem_map.mpr
    refine ⟨q, hq, ?_⟩
    simp [hqk]
  · rw [if_neg hk]
    exact List.mem_append_right _ (List.mem_singleton.mpr rfl)

theorem valuesSet_keys_nodup (vs : QueryValues) (k v : String)
    (hnd : (vs.map Prod.fst).Nodup) : ((valuesSet vs k v).map Prod.fst).Nodup := by
  unfold valuesSet
  by_cases hk : (vs.map Prod.fst).contains k = true
  · rw [if_pos hk]
    have : (vs.map (fun p => if p.1 = k then (k, v) else p)).map Prod.fst
        = vs.map Prod.fst := by
      rw [List.map_map]
      apply List.map_congr_left
      intro p _
      by_cases hp : p.1 = k <;> simp [hp]
    rw [this]
    exact hnd
  · rw [if_neg hk]
    have hknm : k ∉ vs.map Prod.fst := by
      intro hm
      exact hk (by simpa using hm)
    rw [List.map_append]
    rw [List.nodup_append]
    refine ⟨hnd, by simp, ?_⟩
    intro a ha hb
    simp only [List.map_cons, List.map_nil, List.mem_singleton] at hb
    subst hb
    exact hknm ha

theorem inv_valuesSet_ite (sid : String) (vs : QueryValues) (cond : Prop)
    [Decidable cond] (k v : String) (hk : k ≠ "streamid")
    (h1 : ("streamid", sid) ∈ vs) (h2 : (vs.map Prod.fst).Nodup) :
    ("streamid", sid) ∈ (if cond then valuesSet vs k v else vs)
    ∧ ((if cond then valuesSet vs k v else vs).map Prod.fst).Nodup := by
  by_cases hc : cond
  · rw [if_pos hc]
    exact ⟨valuesSet_mem_keep vs k v _ h1 (fun he => hk (he.symm)),
      valuesSet_keys_nodup vs k v h2⟩
  · rw [if_neg hc]
    exact ⟨h1, h2⟩

theorem inv_extras_fold (sid : String) : ∀ (prs : QueryValues) (vs : QueryValues),
    (∀ p ∈ prs, p.1 ≠ "streamid") →
    ("streamid", sid) ∈ vs → (vs.map Prod.fst).Nodup →
    ("streamid", sid) ∈ prs.foldl (fun acc p => valuesSet acc p.1 p.2) vs
    ∧ ((prs.foldl (fun acc p => valuesSet acc p.1 p.2) vs).map Prod.fst).Nodup := by
  intro prs
  induction prs with
  | nil => intro vs _ h1 h2; exact ⟨h1, h2⟩
  | cons p t ih =>
    intro vs hall h1 h2
    simp only [List.foldl_cons]
    exact ih (valuesSet vs p.1 p.2)
      (fun q hq => hall q (List.mem_cons_of_mem p hq))
      (valuesSet_mem_keep vs p.1 p.2 _ h1
        (fun he => hall p (List.mem_cons_self p t) he.symm))
      (valuesSet_keys_nodup vs p.1 p.2 h2)

theorem inv_applySRTQueryOptions (sid : String) (vs : QueryValues)
    (opts : SRTQueryOptions) (hex : extrasKeepStreamID opts = true)
    (h1 : ("streamid", sid) ∈ vs) (h2 : (vs.map Prod.fst).Nodup) :
    ("streamid", sid) ∈ applySRTQueryOptions vs opts
    ∧ ((applySRTQueryOptions vs opts).map Prod.fst).Nodup := by
  simp only [applySRTQueryOptions]
  have i1 := inv_valuesSet_ite sid vs (opts.passphrase ≠ "") "passphrase"
    opts.passphrase (by decide) h1 h2
  have i2 := inv_valuesSet_ite sid _ (opts.pbKeyLen > 0) "pbkeylen"
    (toString opts.pbKeyLen) (by decide) i1.1 i1.2
  have i3 := inv_valuesSet_ite sid _ (opts.peerLatency > 0) "peerlatency"
    (toString opts.peerLatency) (by decide) i2.1 i2.2
  have i4 := inv_valuesSet_ite sid _ (opts.rcvLatency > 0) "rcvlatency"
    (toString opts.rcvLatency) (by decide) i3.1 i3.2
  have i5 := inv_valuesSet_ite sid _ (opts.connTimeout > 0) "conntimeo"
    (toString opts.connTimeout) (by decide) i4.1 i4.2
  have i6 := inv_valuesSet_ite sid _ (opts.sndBuf > 0) "sndbuf"
    (toString opts.sndBuf) (by decide) i5.1 i5.2
  have i7 := inv_valuesSet_ite sid _ (opts.inputBW > 0) "inputbw"
    (toString opts.inputBW) (by decide) i6.1 i6.2
  have i8 := inv_valuesSet_ite sid _ (opts.oheadBW > 0) "oheadbw"
    (toString opts.oheadBW) (by decide) i7.1 i7.2
  have i9 := inv_valuesSet_ite sid _ (opts.tlPktDrop = true) "tlpktdrop"
    "1" (by decide) i8.1 i8.2
  by_cases he : trimSpace opts.extraParams = ""
  · rw [if_pos he]
    exact i9
  · rw [if_neg he]
    cases hp : goParseQueryStrict (trimLeftQueryMarks (trimSpace opts.extraParams)) with
    | none => exact i9
    | some parsed =>
      have hall : ∀ p ∈ parsed, p.1 ≠ "streamid" := by
        simp only [extrasKeepStreamID, he, Bool.false_eq_true, if_neg,
          not_false_eq_true, hp] at hex
        intro p hp'
        have := List.all_eq_true.mp hex p hp'
        simpa using this
      exact inv_extras_fold sid parsed _ hall i9.1 i9.2

theorem inv_buildSRTQueryValues (sid : String) (opts : SRTQueryOptions)
    (hex : extrasKeepStreamID opts = true) :
    ("streamid", sid) ∈ buildSRTQueryValues sid opts
    ∧ ((buildSRTQueryValues sid opts).map Prod.fst).Nodup := by
  simp only [buildSRTQueryValues]
  have hbase_eq : valuesSet (valuesSet (valuesSet [] "streamid" sid) "mode" "caller")
      "transtype" "live"
      = [("streamid", sid), ("mode", "caller"), ("transtype", "live")] := rfl
  have hmem : ("streamid", sid)
      ∈ valuesSet (valuesSet (valuesSet [] "streamid" sid) "mode" "caller")
        "transtype" "live" := by
    rw [hbase_eq]
    exact List.mem_cons_self _ _
  have hnd : ((valuesSet (valuesSet (valuesSet [] "streamid" sid) "mode" "caller")
      "transtype" "live").map Prod.fst).Nodup := by
    rw [hbase_eq]
    simp only [List.map_cons, List.map_nil]
    decide
  have i1 := inv_valuesSet_ite sid _ (opts.packetSize > 0) "pkt_size"
    (toString opts.packetSize) (by decide) hmem hnd
  have i2 := inv_valuesSet_ite sid _ (opts.latency > 0) "latency"
    (toString opts.latency) (by decide) i1.1 i1.2
  have i3 := inv_valuesSet_ite sid _ (opts.maxBW > 0) "maxbw"
    (toString opts.maxBW) (by decide) i2.1 i2.2
  have i4 := inv_valuesSet_ite sid _ (opts.rcvBuf > 0) "rcvbuf"
    (toString opts.rcvBuf) (by decide) i3.1 i3.2
  exact inv_applySRTQueryOptions sid _ opts hex i4.1 i4.2

theorem extrasKeepStreamID_of_empty (o : SRTQueryOptions) (h : o.extraParams = "") :
    extrasKeepStreamID o = true := by
  unfold extrasKeepStreamID
  rw [h]
  rfl

theorem extrasKeepStreamID_congr (a b : SRTQueryOptions)
    (h : a.extraParams = b.extraParams) :
    extrasKeepStreamID a = extrasKeepStreamID b := by
  simp only [extrasKeepStreamID, h]

theorem withSRTDefaults_extraParams (o : SRTQueryOptions) :
    (withSRTDefaults o).extraParams = o.extraParams := by
  by_cases h1 : o.latency = 0 <;> by_cases h2 : o.packetSize = 0 <;>
    simp [withSRTDefaults, h1, h2]

theorem mem_ite_concat {α : Type} {c : Prop} [Decidable c] {l : List α} {x y : α}
    (h : y ∈ (if c then l ++ [x] else l)) : y ∈ l ∨ y = x := by
  split_ifs at h
  · rcases List.mem_append.mp h with h | h
    · exact Or.inl h
    · exact Or.inr (List.mem_singleton.mp h)
  · exact Or.inl h

theorem mem_ite_lists {α : Type} {c : Prop} [Decidable c] {l1 l2 : List α} {y : α}
    (h : y ∈ (if c then l1 else l2)) : y ∈ l1 ∨ y ∈ l2 := by
  split_ifs at h
  · exact Or.inl h
  · exact Or.inr h

theorem srtOptionCandidates_extras (opts : SRTQueryOptions) (compat : Bool)
    (hex : extrasKeepStreamID opts = true) :
    ∀ o ∈ srtOptionCandidates opts compat, extrasKeepStreamID o = true := by
  intro o ho
  have hbase : extrasKeepStreamID (withSRTDefaults opts) = true := by
    rw [extrasKeepStreamID_congr _ opts (withSRTDefaults_extraParams opts)]
    exact hex
  simp only [srtOptionCandidates] at ho
  rcases mem_ite_lists ho with ho | ho
  · rcases mem_ite_concat ho with ho | rfl
    · rcases mem_ite_concat ho with ho | rfl
      · rw [List.mem_singleton.mp ho]
        exact hbase
      · exact extrasKeepStreamID_of_empty _ rfl
    · exact extrasKeepStreamID_of_empty _ rfl
  · rcases mem_ite_concat ho with ho | rfl
    · rcases mem_ite_concat ho with ho | rfl
      · rcases mem_ite_concat ho with ho | rfl
        · rw [List.mem_singleton.mp ho]
          exact hbase
        · exact extrasKeepStreamID_of_empty _ rfl
      · exact extrasKeepStreamID_of_empty _ rfl
    · exact extrasKeepStreamID_of_empty _ rfl

theorem normalizeSRTInputs_path (host : String) (port : Int) (path : String)
    (norm : String × Int × String)
    (h : normalizeSRTInputs host port path = some norm) :
    norm.2.2 = trimSlashes (trimSpace path) := by
  simp only [normalizeSRTInputs] at h
  repeat' split at h
  all_goals (cases h <;> rfl)

theorem media_build_config_omissions_witness :
    cameraIncluded { deviceID := "b", rtspURL := "rtsp://y" } = true
    ∧ ({ deviceID := "b", rtspURL := "rtsp://y" } : CameraInfo).recordEnabled = false
    ∧ (buildConfig [{ deviceID := "a", rtspURL := " " },
          { deviceID := "b", rtspURL := "rtsp://y" }] maxRecordDeleteAfter
        = buildConfig ([{ deviceID := "a", rtspURL := " " },
            { deviceID := "b", rtspURL := "rtsp://y" }].filter cameraIncluded)
            maxRecordDeleteAfter
      ∧ (buildConfig [{ deviceID := "b", rtspURL := "rtsp://y" }] maxRecordDeleteAfter).paths
          = [(pathNameFor { deviceID := "b", rtspURL := "rtsp://y" },
              { source := trimSpace "rtsp://y", sourceOnDemand := false,
                record := some false, recordDeleteAfter := "" })]) :=
  ⟨by decide, rfl,
    media_build_config_omissions _ maxRecordDeleteAfter _ (by decide) rfl⟩

theorem takeWhile_all (p : Char → Bool) : ∀ (l : List Char),
    (∀ c ∈ l, p c = true) → l.takeWhile p = l := by
  intro l
  induction l with
  | nil => intro _; rfl
  | cons c t ih =>
    intro hall
    simp [List.takeWhile_cons, hall c (List.mem_cons_self c t),
      ih (fun d hd => hall d (List.mem_cons_of_mem c hd))]

theorem mem_intercalate_sep (sep : Char) : ∀ (pieces : List (List Char)) (d : Char),
    d ∈ List.intercalate [sep] pieces → d = sep ∨ ∃ p ∈ pieces, d ∈ p := by
  intro pieces
  induction pieces with
  | nil =>
    intro d hd
    simp [List.intercalate] at hd
  | cons p ps ih =>
    intro d hd
    cases ps with
    | nil =>
      rw [intercalate_singleton] at hd
      exact Or.inr ⟨p, List.mem_cons_self p [], hd⟩
    | cons q qs =>
      rw [intercalate_cons_of_ne_nil sep p (q :: qs) (by simp)] at hd
      rcases List.mem_append.mp hd with hd | hd
      · exact Or.inr ⟨p, List.mem_cons_self p _, hd⟩
      · rcases List.mem_cons.mp hd with rfl | hd
        · exact Or.inl rfl
        · rcases ih d hd with h | ⟨r, hr, hdr⟩
          · exact Or.inl h
          · exact Or.inr ⟨r, List.mem_cons_of_mem p hr, hdr⟩

theorem valuesEncode_no_hash (vs : QueryValues) :
    ∀ d ∈ (valuesEncode vs).data, d ≠ '#' := by
  intro d hd
  have hmem : d ∈ List.intercalate ['&'] ((sortByKey vs).map renderPair) := hd
  rcases mem_intercalate_sep '&' _ d hmem with rfl | ⟨p, hp, hdp⟩
  · decide
  · obtain ⟨pr, _, rfl⟩ := List.mem_map.mp hp
    exact (renderPair_class pr d hdp).2.2

theorem streamid_literal_no_hash : ∀ d ∈ "streamid=".data, d ≠ '#' := by decide

theorem amp_streamid_literal_no_hash : ∀ d ∈ "&streamid=".data, d ≠ '#' := by decide

theorem rawStreamQuery_no_hash (values : QueryValues) (sid : String)
    (hsafe : isSafeRawStreamID sid = true) :
    ∀ d ∈ (buildSRTQueryWithRawStreamID values sid).data, d ≠ '#' := by
  intro d hd
  unfold buildSRTQueryWithRawStreamID at hd
  by_cases henc : valuesEncode (valuesDel values "streamid") = ""
  · rw [if_pos henc] at hd
    rw [String.data_append] at hd
    rcases List.mem_append.mp hd with hd | hd
    · exact streamid_literal_no_hash d hd
    · exact (safe_streamid_chars sid hsafe d hd).2.2.2.1
  · rw [if_neg henc] at hd
    simp only [String.data_append] at hd
    rcases List.mem_append.mp hd with hd | hd
    · rcases List.mem_append.mp hd with hd | hd
      · exact valuesEncode_no_hash _ d hd
      · exact amp_streamid_literal_no_hash d hd
    · exact (safe_streamid_chars sid hsafe d hd).2.2.2.1

theorem mem_ite_concat_guard {α : Type} {c : Prop} [Decidable c] {l : List α} {x y : α}
    (h : y ∈ (if c then l ++ [x] else l)) : y ∈ l ∨ (c ∧ y = x) := by
  split_ifs at h with hc
  · rcases List.mem_append.mp h with h | h
    · exact Or.inl h
    · exact Or.inr ⟨hc, List.mem_singleton.mp h⟩
  · exact Or.inl h

theorem parseSRTURL_shape (H Qd : List Char)
    (hHcls : ∀ d ∈ H, d ≠ '/' ∧ d ≠ '?' ∧ d ≠ '#' ∧ d ≠ '@' ∧ isGoSpace d = false)
    (hQ : Qd = [] ∨ ∃ qd, Qd = '?' :: qd ∧ ∀ d ∈ qd, d ≠ '#') :
    parseSRTURL ⟨'s' :: 'r' :: 't' :: ':' :: '/' :: '/' :: (H ++ Qd)⟩
      = some ("srt", ⟨H⟩, ⟨Qd.drop 1⟩) := by
  have hany : H.any isGoSpace = false := by
    simp only [List.any_eq_false]
    intro x hx
    simp [(hHcls x hx).2.2.2.2]
  have hdui : dropUserinfo H = H := by
    unfold dropUserinfo
    rw [not_contains_of_not_mem H '@' (fun hm => (hHcls _ hm).2.2.2.1 rfl)]
    simp
  rcases hQ with rfl | ⟨qd, rfl, hqd⟩
  · rw [List.append_nil]
    have hafter : afterSchemeSep
        (String.data ⟨'s' :: 'r' :: 't' :: ':' :: '/' :: '/' :: H⟩) = some H := rfl
    have hscheme : List.takeWhile (· ≠ ':')
        (String.data (⟨'s' :: 'r' :: 't' :: ':' :: '/' :: '/' :: H⟩ : String))
        = ['s', 'r', 't'] := rfl
    have hauth : takeAuthority H = H := by
      unfold takeAuthority
      apply takeWhile_all
      intro c hc
      obtain ⟨h1, h2, h3, _, _⟩ := hHcls c hc
      simp [h1, h2, h3]
    simp only [parseSRTURL, hafter, hscheme, hauth, hany, hdui, List.drop_length,
      Bool.false_eq_true, if_false, List.takeWhile_nil, List.dropWhile_nil,
      List.drop_nil]
  · have hafter : afterSchemeSep
        (String.data ⟨'s' :: 'r' :: 't' :: ':' :: '/' :: '/' :: (H ++ '?' :: qd)⟩)
        = some (H ++ '?' :: qd) := rfl
    have hscheme : List.takeWhile (· ≠ ':')
        (String.data (⟨'s' :: 'r' :: 't' :: ':' :: '/' :: '/' :: (H ++ '?' :: qd)⟩ : String))
        = ['s', 'r', 't'] := rfl
    have hauth : takeAuthority (H ++ '?' :: qd) = H := by
      unfold takeAuthority
      apply takeWhile_append_stop
      · intro c hc
        obtain ⟨h1, h2, h3, _, _⟩ := hHcls c hc
        simp [h1, h2, h3]
      · decide
    have hdrop : (H ++ '?' :: qd).drop H.length = '?' :: qd := List.drop_left H _
    have hfrag : List.takeWhile (· ≠ '#') ('?' :: qd) = '?' :: qd := by
      apply takeWhile_all
      intro c hc
      rcases List.mem_cons.mp hc with rfl | hc
      · decide
      · simp [hqd c hc]
    have hdw : List.dropWhile (· ≠ '?') ('?' :: qd) = '?' :: qd := rfl
    simp only [parseSRTURL, hafter, hscheme, hauth, hany, hdui, hdrop, hfrag, hdw,
      Bool.false_eq_true, if_false, List.drop_succ_cons, List.drop_zero]

theorem parseSRTURL_buildSRTURL (h : String) (p : Int) (rq : String)
    (hq : ∀ d ∈ rq.data, d ≠ '#') :
    parseSRTURL (buildSRTURL h p rq)
      = some ("srt", escapeHost (h ++ ":" ++ toString p), rq) := by
  unfold buildSRTURL
  by_cases hq0 : rq = ""
  · subst hq0
    rw [if_pos rfl]
    have harg : ("srt://" ++ escapeHost (h ++ ":" ++ toString p) ++ "")
        = ⟨'s' :: 'r' :: 't' :: ':' :: '/' :: '/' ::
            ((escapeHost (h ++ ":" ++ toString p)).data ++ [])⟩ := by
      apply String.ext
      simp only [String.data_append, List.append_assoc]
      rfl
    rw [harg, parseSRTURL_shape _ _ (escapeHost_class _) (Or.inl rfl)]
    rfl
  · rw [if_neg hq0]
    have harg : ("srt://" ++ escapeHost (h ++ ":" ++ toString p) ++ ("?" ++ rq))
        = ⟨'s' :: 'r' :: 't' :: ':' :: '/' :: '/' ::
            ((escapeHost (h ++ ":" ++ toString p)).data ++ ('?' :: rq.data))⟩ := by
      apply String.ext
      simp only [String.data_append, List.append_assoc]
      rfl
    rw [harg, parseSRTURL_shape _ _ (escapeHost_class _) (Or.inr ⟨rq.data, rfl, hq⟩)]
    rfl

theorem hostport_ne_empty (h : String) (p : Int) : h ++ ":" ++ toString p ≠ "" := by
  intro hcon
  have hd : (h ++ ":" ++ toString p).data = [] := by rw [hcon]
  rw [String.data_append, String.data_append] at hd
  have hm : (':' : Char) ∈ (h.data ++ ":".data) ++ (toString p).data :=
    List.mem_append.mpr (Or.inl (List.mem_append.mpr (Or.inr (by decide))))
  rw [hd] at hm
  simp at hm

theorem buildSRTURLVariants_properties (h : String) (p : Int) (path : String)
    (o : SRTQueryOptions) (hex : extrasKeepStreamID o = true) :
    ∀ u ∈ buildSRTURLVariants h p path o,
      ∃ hostStr rawQ, parseSRTURL u = some ("srt", hostStr, rawQ) ∧
        hostStr ≠ "" ∧ queryGet rawQ "streamid" = streamIDForPath path := by
  intro u hu
  have hinv := inv_buildSRTQueryValues (streamIDForPath path) o hex
  simp only [buildSRTURLVariants] at hu
  rcases mem_ite_concat_guard hu with hu | ⟨hsafe, rfl⟩
  · rw [List.mem_singleton] at hu
    subst hu
    refine ⟨escapeHost (h ++ ":" ++ toString p),
      valuesEncode (buildSRTQueryValues (streamIDForPath path) o), ?_, ?_, ?_⟩
    · exact parseSRTURL_buildSRTURL h p _ (valuesEncode_no_hash _)
    · exact escapeHost_ne_empty _ (hostport_ne_empty h p)
    · exact queryGet_valuesEncode _ "streamid" (streamIDForPath path) hinv.2 hinv.1
  · refine ⟨escapeHost (h ++ ":" ++ toString p),
      buildSRTQueryWithRawStreamID (buildSRTQueryValues (streamIDForPath path) o)
        (streamIDForPath path), ?_, ?_, ?_⟩
    · exact parseSRTURL_buildSRTURL h p _ (rawStreamQuery_no_hash _ _ hsafe)
    · exact escapeHost_ne_empty _ (hostport_ne_empty h p)
    · exact queryGet_rawStreamID _ _ hsafe

theorem srt_inner_fold_mem : ∀ (lst urls : List String) (u : String),
    u ∈ lst.foldl (fun urls srtURL =>
        if ¬ validateSRTURL srtURL then urls
        else if urls.contains srtURL then urls
        else urls ++ [srtURL]) urls →
    u ∈ urls ∨ u ∈ lst := by
  intro lst
  induction lst with
  | nil =>
    intro urls u hu
    exact Or.inl hu
  | cons x t ih =>
    intro urls u hu
    rw [List.foldl_cons] at hu
    rcases ih _ u hu with hu | hu
    · split_ifs at hu with h1 h2
      all_goals first
        | exact Or.inl hu
        | (rcases List.mem_append.mp hu with hu | hu;
           exacts [Or.inl hu,
             Or.inr (List.mem_cons.mpr (Or.inl (List.mem_singleton.mp hu)))])
    · exact Or.inr (List.mem_cons_of_mem x hu)

theorem srt_inner_fold_nodup : ∀ (lst urls : List String),
    urls.Nodup →
    (lst.foldl (fun urls srtURL =>
        if ¬ validateSRTURL srtURL then urls
        else if urls.contains srtURL then urls
        else urls ++ [srtURL]) urls).Nodup := by
  intro lst
  induction lst with
  | nil =>
    intro urls hnd
    exact hnd
  | cons x t ih =>
    intro urls hnd
    rw [List.foldl_cons]
    apply ih
    split_ifs with h1 h2
    all_goals first
      | exact hnd
      | (have hx : x ∉ urls := fun hm => h2 (by simpa using hm);
         exact List.Nodup.append hnd (List.nodup_singleton x)
           (fun b hb hb2 => hx (List.mem_singleton.mp hb2 ▸ hb)))

theorem srt_outer_fold_mem (a : String) (b : Int) (c : String) :
    ∀ (cands : List SRTQueryOptions) (urls : List String) (u : String),
    u ∈ cands.foldl (fun urls candidate =>
        (buildSRTURLVariants a b c candidate).foldl
          (fun urls srtURL =>
            if ¬ validateSRTURL srtURL then urls
            else if urls.contains srtURL then urls
            else urls ++ [srtURL]) urls) urls →
    u ∈ urls ∨ ∃ o ∈ cands, u ∈ buildSRTURLVariants a b c o := by
  intro cands
  induction cands with
  | nil =>
    intro urls u hu
    exact Or.inl hu
  | cons x t ih =>
    intro urls u hu
    rw [List.foldl_cons] at hu
    rcases ih _ u hu with hu | ⟨o, ho, huo⟩
    · rcases srt_inner_fold_mem _ _ u hu with hu | hu
      · exact Or.inl hu
      · exact Or.inr ⟨x, List.mem_cons_self x t, hu⟩
    · exact Or.inr ⟨o, List.mem_cons_of_mem x ho, huo⟩

theorem srt_outer_fold_nodup (a : String) (b : Int) (c : String) :
    ∀ (cands : List SRTQueryOptions) (urls : List String),
    urls.Nodup →
    (cands.foldl (fun urls candidate =>
        (buildSRTURLVariants a b c candidate).foldl
          (fun urls srtURL =>
            if ¬ validateSRTURL srtURL then urls
            else if urls.contains srtURL then urls
            else urls ++ [srtURL]) urls) urls).Nodup := by
  intro cands
  induction cands with
  | nil =>
    intro urls hnd
    exact hnd
  | cons x t ih =>
    intro urls hnd
    rw [List.foldl_cons]
    exact ih _ (srt_inner_fold_nodup _ _ hnd)

/-- C3 counterexample to the original claim: when the ambient extra SRT
    parameters (UPLINK_SRT_EXTRA_PARAMS) carry a streamid pair, the primary
    candidate returned by BuildSRTURLCandidates has that extra value as its
    effective streamid query, not publish:<centralPath>. -/
theorem srt_streamid_override_counterexample :
    "srt://h:1?latency=200&mode=caller&pkt_size=1316&streamid=evil&transtype=live"
        ∈ buildSRTURLCandidates "h" 1 "p" { extraParams := "streamid=evil" } false
    ∧ (match parseSRTURL
          "srt://h:1?latency=200&mode=caller&pkt_size=1316&streamid=evil&transtype=live" with
        | some parsed => queryGet parsed.2.2 "streamid"
        | none => "") = "evil"
    ∧ streamIDForPath (trimSlashes (trimSpace "p")) = "publish:p"
    ∧ ("evil" : String) ≠ "publish:p" := by decide

/-- C3 (amended): provided the ambient extra SRT parameters carry no
    streamid key, every string returned by BuildSRTURLCandidates parses as a
    URL with scheme srt and a non-empty host whose streamid query equals
    streamIDForPath of the normalized central path (publish:<path>, with the
    path passed through unchanged when it already begins with "publish:"),
    and the returned list contains no duplicate URL. -/
theorem srt_url_candidates_amended (host : String) (port : Int) (path : String)
    (opts : SRTQueryOptions) (compat : Bool)
    (hex : extrasKeepStreamID opts = true) :
    (buildSRTURLCandidates host port path opts compat).Nodup ∧
    ∀ u ∈ buildSRTURLCandidates host port path opts compat,
      ∃ hostStr rawQ, parseSRTURL u = some ("srt", hostStr, rawQ) ∧ hostStr ≠ "" ∧
        queryGet rawQ "streamid" = streamIDForPath (trimSlashes (trimSpace path)) := by
  cases hn : normalizeSRTInputs host port path with
  | none =>
    have hEq : buildSRTURLCandidates host port path opts compat = [] := by
      unfold buildSRTURLCandidates
      rw [hn]
    rw [hEq]
    exact ⟨List.nodup_nil, fun u hu => absurd hu (List.not_mem_nil u)⟩
  | some norm =>
    have hEq : buildSRTURLCandidates host port path opts compat
        = (srtOptionCandidates opts compat).foldl (fun urls candidate =>
            (buildSRTURLVariants norm.1 norm.2.1 norm.2.2 candidate).foldl
              (fun urls srtURL =>
                if ¬ validateSRTURL srtURL then urls
                else if urls.contains srtURL then urls
                else urls ++ [srtURL]) urls) [] := by
      unfold buildSRTURLCandidates
      rw [hn]
    rw [hEq]
    constructor
    · exact srt_outer_fold_nodup norm.1 norm.2.1 norm.2.2 _ [] List.nodup_nil
    · intro u hu
      rcases srt_outer_fold_mem norm.1 norm.2.1 norm.2.2 _ [] u hu with hu | ⟨o, ho, huo⟩
      · exact absurd hu (List.not_mem_nil u)
      · have hexo := srtOptionCandidates_extras opts compat hex o ho
        have hpath := normalizeSRTInputs_path host port path norm hn
        have hprops := buildSRTURLVariants_properties norm.1 norm.2.1 norm.2.2 o hexo u huo
        rwa [hpath] at hprops

/-- C3 witness: the amended property instantiated at a concrete build with
    empty ambient options. -/
theorem srt_url_candidates_amended_witness :
    (buildSRTURLCandidates "central.local" 8890 "acme/hq/cam-001" {} false).Nodup ∧
    ∀ u ∈ buildSRTURLCandidates "central.local" 8890 "acme/hq/cam-001" {} false,
      ∃ hostStr rawQ, parseSRTURL u = some ("srt", hostStr, rawQ) ∧ hostStr ≠ "" ∧
        queryGet rawQ "streamid"
          = streamIDForPath (trimSlashes (trimSpace "acme/hq/cam-001")) :=
  srt_url_candidates_amended "central.local" 8890 "acme/hq/cam-001" {} false (by decide)

/-- C9 witness: the fan-out key-set property instantiated at a concrete
    event's published key set, with no engines. -/
theorem no_snapshot_on_bus_witness :
    "SnapshotB64" ∉ analyticEventJSONKeys (stripForBus {})
    ∧ "RawSnapshot" ∉ analyticEventJSONKeys (stripForBus {}) :=
  no_snapshot_on_bus {} [] (analyticEventJSONKeys (stripForBus {})) (by decide)

end CamBus
